import Mathlib

/-!
Verification of the VRP-Case-Study archive-reconstruction code (`src/vrp_dss/data.py`).

This file gives a shallow embedding of the functions the claims are about:

* `read_archive` (data.py lines 261-338): the route-boundary state machine,
  including the overflow-normalization loop run at each route finalization
  (lines 279-288) and the per-line location/demand/merge processing
  (lines 303-336).
* `find_vehicle` (data.py lines 224-248): vehicle resolution with the
  closest-capacity fallback.
* `find_location` (data.py lines 175-188): linear store-code lookup.
* `load_archive_routes` (data.py lines 367-384): the zero-quantity-stop
  removal loop run on reload.
* The batch-partition arithmetic of `pull_travel_data_from_bing`
  (data.py lines 508-528).

Modelling conventions:

* Spreadsheet I/O (`openpyxl`) is external: an archive worksheet is modelled
  as a `List ArchiveLine` of already-read cell values; the `int(...)` parse
  of a demand cell is modelled as an `Option Int` (`none` = the parse raised
  `ValueError`/`TypeError` and the component defaults to 0).
* Python machine integers are unbounded, so quantities and demands are `Int`.
* Mutation of `PhysicalLocation.demand` (one accumulator per location object)
  is modelled by a `List Int` indexed by the location's position in the
  registry list; object identity of a resolved location is exactly its
  position, since `find_location` returns `locations[locations.index(code)]`.
  Each location's accumulator starts at 0 (`PhysicalLocation.__init__`).
* Mutation of `VehicleType.vehicles_used` is likewise a `List Int` indexed by
  the type's position in the `vehicle_types` list.
* Unused configuration fields (latitude, longitude, offload time, the float
  cost rates of a vehicle type) are omitted: no modelled function reads them.
* The possibly-nonterminating `while` loop of overflow normalization is given
  a fuel parameter; running out of fuel yields `none`.  Python exceptions
  (`AttributeError` from dereferencing a `None` vehicle type, and the fuel
  exhaustion / index failure of normalization) are modelled with `Except`.
-/

/-- Python `VehicleType` (data.py lines 18-36).  The float cost-rate fields are
never read by the reconstruction code, and the mutable `vehicles_used` counter
lives in the reconstruction state, indexed by registry position. -/
structure VehicleType where
  dataIndex : Nat
  name : String
  capacity : Int
  vehiclesAvailable : Int
  deriving DecidableEq

/-- Python `Vehicle` (data.py lines 39-49).  `typePos` is the position of its
`VehicleType` in the registry list; `find_vehicle` can build a `Vehicle` whose
type is Python `None`, hence the `Option`. -/
structure Vehicle where
  name : String
  typePos : Option Nat
  deriving DecidableEq

/-- Python `PhysicalLocation` (data.py lines 52-126), restricted to the fields
the reconstruction reads: its identity index, its display name (used by
`__eq__`), and its store-code list.  The mutable `demand` accumulator lives in
the reconstruction state, indexed by registry position. -/
structure PhysicalLocation where
  dataIndex : Nat
  name : String
  storeIds : List Int
  deriving DecidableEq

/-- Python `Stop` (data.py lines 129-134): a reference to a resolved location
(its registry position) and the quantity delivered there. -/
structure Stop where
  locPos : Nat
  delivered : Int
  deriving DecidableEq

/-- Python `Route` (data.py lines 137-155): route code, assigned vehicle and
the ordered stop list. -/
structure Route where
  code : Int
  vehicle : Vehicle
  stops : List Stop
  deriving DecidableEq

/-- One already-read row of the "Deliveries" worksheet consumed by
`read_archive`: columns B (store code), D (route code), J (horse code),
K (trailer code), P (carried load) and M/N/O (the three demand components,
`none` when `int(...)` fails on the cell). -/
structure ArchiveLine where
  storeCode : Int
  routeCode : Int
  horse : String
  trailer : String
  carried : Int
  dry : Option Int
  perish : Option Int
  pickByLine : Option Int
  deriving DecidableEq

/-- Python exceptions and failure modes surfaced by the embedding. -/
inductive PyErr where
  /-- Dereferencing an attribute of `None`
  (`route.vehicle.vehicle_type.vehicles_used` when the type is `None`). -/
  | attributeError
  /-- `ZeroDivisionError` from `floor(max_pairs / len(locations))`. -/
  | zeroDivisionError
  /-- `raise ValueError("Too many locations!")` (data.py line 515). -/
  | valueError
  /-- The overflow-normalization `while` loop did not finish with the given
  fuel (it can genuinely run forever), or indexed an empty stop list. -/
  | normFailure
  deriving DecidableEq

/-- `sum([stop.delivered for stop in route.stops])` (data.py line 279). -/
def sumDelivered (stops : List Stop) : Int :=
  (stops.map (fun s => s.delivered)).sum

/-- `location.demand += d` on the location at registry position `p`. -/
def demandAdd (demands : List Int) (p : Nat) (d : Int) : List Int :=
  demands.set p (demands.getD p 0 + d)

/-- `location.demand -= 1` on the location at registry position `p`
(data.py line 286). -/
def demandSub (demands : List Int) (p : Nat) : List Int :=
  demands.set p (demands.getD p 0 - 1)

/-- The overflow-normalization loop (data.py lines 279-288):

    stop_ind = 0
    while total_delivered > route.vehicle.vehicle_type.capacity:
        if route.stops[stop_ind].delivered > 1:
            route.stops[stop_ind].delivered -= 1
            route.stops[stop_ind].location.demand -= 1
            total_delivered -= 1
        stop_ind = (stop_ind + 1) % len(route.stops)

The loop need not terminate, so it takes fuel; `none` means the loop was
still running when the fuel ran out (or indexed into an empty stop list,
which in Python is an `IndexError`). -/
def normLoop (cap : Int) : Nat → List Stop → List Int → Nat → Int →
    Option (List Stop × List Int)
  | fuel, stops, demands, ind, total =>
    if total ≤ cap then some (stops, demands)
    else
      match fuel with
      | 0 => none
      | fuel + 1 =>
        match stops[ind]? with
        | none => none
        | some s =>
          if 1 < s.delivered then
            normLoop cap fuel (stops.set ind { s with delivered := s.delivered - 1 })
              (demandSub demands s.locPos) ((ind + 1) % stops.length) (total - 1)
          else
            normLoop cap fuel stops demands ((ind + 1) % stops.length) total

/-- Python `list.index(store_code)` over the location registry, using
`PhysicalLocation.__eq__` against an `int` (data.py lines 82-83:
`self.store_ids.count(other) > 0`); returns the position of the first
location containing the store code, as `find_location` (lines 175-181) does. -/
def findLocIdx (storeCode : Int) : List PhysicalLocation → Option Nat
  | [] => none
  | loc :: rest =>
    if loc.storeIds.contains storeCode then some 0
    else (findLocIdx storeCode rest).map (· + 1)

/-- `find_location` (data.py lines 175-181): first location whose store-id
list contains the code, `none` when the `list.index` raises `ValueError`. -/
def find_location (storeCode : Int) (locations : List PhysicalLocation) : Option Nat :=
  findLocIdx storeCode locations

/-- Python `Vehicle.__eq__` (data.py lines 46-49): a `Vehicle` is equal only
to another `Vehicle` with the same name; comparing it against any other value
returns `False`.  `find_vehicle` calls `vehicles.index(horse)` with `horse` a
spreadsheet string, and `list.index` compares each element via
`Vehicle.__eq__(element, horse)`, which is always `False` for a string. -/
def vehicleEqPy (_v : Vehicle) (_code : String) : Bool :=
  false

/-- `vehicles.index(code)` as called from `find_vehicle` (data.py lines
229/233), with the element-against-string comparison semantics above. -/
def pyVehiclesIndex (vehicles : List Vehicle) (code : String) : Option Nat :=
  match vehicles with
  | [] => none
  | v :: rest =>
    if vehicleEqPy v code then some 0
    else (pyVehiclesIndex rest code).map (· + 1)

/-- `abs(vehicle_type.capacity - carried)` (data.py line 240). -/
def typeDiff (t : VehicleType) (carried : Int) : Int :=
  |t.capacity - carried|

/-- The closest-capacity scan of `find_vehicle` (data.py lines 237-243):

    lowest_diff = inf
    closest_type = None
    for vehicle_type in vehicle_types:
        diff = abs(vehicle_type.capacity - carried)
        if diff < lowest_diff:
            lowest_diff = diff
            closest_type = vehicle_type

The accumulator holds the position and diff of the current best; `none`
stands for `closest_type = None` with `lowest_diff = inf`, so the first type
always wins against it. -/
def closestTypeAux (carried : Int) : List VehicleType → Nat → Option (Nat × Int) →
    Option (Nat × Int)
  | [], _, best => best
  | t :: ts, i, best =>
    let d := typeDiff t carried
    match best with
    | none => closestTypeAux carried ts (i + 1) (some (i, d))
    | some (bi, bd) =>
      if d < bd then closestTypeAux carried ts (i + 1) (some (i, d))
      else closestTypeAux carried ts (i + 1) (some (bi, bd))

/-- Position in the registry of the `closest_type` chosen by the scan,
`none` when the registry is empty (Python leaves `closest_type = None`). -/
def closestTypePos (types : List VehicleType) (carried : Int) : Option Nat :=
  (closestTypeAux carried types 0 none).map (fun pr => pr.1)

/-- `find_vehicle` (data.py lines 224-248): try the horse code, then the
trailer code, then synthesize `Vehicle(horse, closest_type)`.  The final
`except ValueError: return None` is dead code: the fallback block raises
nothing, so the function always returns a `Vehicle` (possibly with a `None`
type when the registry is empty). -/
def find_vehicle (horse trailer : String) (carried : Int) (vehicles : List Vehicle)
    (types : List VehicleType) : Option Vehicle :=
  match pyVehiclesIndex vehicles horse with
  | some i => vehicles[i]?
  | none =>
    match pyVehiclesIndex vehicles trailer with
    | some i => vehicles[i]?
    | none => some { name := horse, typePos := closestTypePos types carried }

/-- `route.stops[0].location == location` (data.py line 330):
`PhysicalLocation.__eq__` compares display names (line 81). -/
def locNameEq (locations : List PhysicalLocation) (p q : Nat) : Bool :=
  match locations[p]?, locations[q]? with
  | some a, some b => a.name == b.name
  | _, _ => false

/-- `int(cell)` with `except (ValueError, TypeError): ... = 0`
(data.py lines 308-319). -/
def parseDemand : Option Int → Int
  | some d => d
  | none => 0

/-- `demand = dry_demand + perish_demand + pick_by_line_demand`
(data.py line 323). -/
def lineDemand (line : ArchiveLine) : Int :=
  parseDemand line.dry + parseDemand line.perish + parseDemand line.pickByLine

/-- The per-line location/demand/merge block of `read_archive`
(data.py lines 303-334): resolve the location (dropping the line when
unresolved), accumulate the line's demand on the location, and either merge
into the front-of-list stop (same location by name) or insert a new stop at
the front. -/
def processLine (locations : List PhysicalLocation) (line : ArchiveLine)
    (stops : List Stop) (demands : List Int) : List Stop × List Int :=
  match find_location line.storeCode locations with
  | none => (stops, demands)
  | some p =>
    let d := lineDemand line
    let demands' := demandAdd demands p d
    match stops with
    | [] => ([{ locPos := p, delivered := d }], demands')
    | s :: rest =>
      if locNameEq locations s.locPos p then
        ({ s with delivered := s.delivered + d } :: rest, demands')
      else
        ({ locPos := p, delivered := d } :: s :: rest, demands')

/-- The output mapping `Dict[int, List[Route]]`, keyed by
`vehicle_type.data_index`, as an insertion-ordered association list. -/
abbrev RoutesDict : Type :=
  List (Nat × List Route)

/-- `routes.get(key)` on the association list. -/
def dictGet (d : RoutesDict) (k : Nat) : Option (List Route) :=
  match d with
  | [] => none
  | (k', v) :: rest => if k' = k then some v else dictGet rest k

/-- `routes[key] = v`: replace in place, or append a fresh key at the end
(Python dict insertion order). -/
def dictSet (d : RoutesDict) (k : Nat) (v : List Route) : RoutesDict :=
  match d with
  | [] => [(k, v)]
  | (k', v') :: rest => if k' = k then (k, v) :: rest else (k', v') :: dictSet rest k v

/-- Committing a finalized route (data.py lines 289-291):

    if not routes.get(route.vehicle.vehicle_type.data_index):
        routes[route.vehicle.vehicle_type.data_index] = []
    routes[route.vehicle.vehicle_type.data_index].append(route)
-/
def dictAppend (d : RoutesDict) (k : Nat) (r : Route) : RoutesDict :=
  match dictGet d k with
  | none => dictSet d k [r]
  | some rs => if rs.isEmpty then dictSet d k [r] else dictSet d k (rs ++ [r])

/-- The mutable state threaded through the `read_archive` loop: the output
dict, the open route, the per-location demand accumulators and the per-type
`vehicles_used` counters. -/
structure ReconState where
  routes : RoutesDict
  current : Option Route
  demands : List Int
  used : List Int
  deriving DecidableEq

/-- Route finalization (data.py lines 274-291): run overflow normalization
against the vehicle's type capacity, then commit the route into the output
dict under the type's data index.  Dereferencing a `None` vehicle type is an
`AttributeError`. -/
def finalizeRoute (types : List VehicleType) (fuel : Nat) (r : Route)
    (routes : RoutesDict) (demands : List Int) :
    Except PyErr (RoutesDict × List Int) :=
  match r.vehicle.typePos with
  | none => .error .attributeError
  | some tp =>
    match types[tp]? with
    | none => .error .attributeError
    | some t =>
      match normLoop t.capacity fuel r.stops demands 0 (sumDelivered r.stops) with
      | none => .error .normFailure
      | some (stops, demands') =>
        .ok (dictAppend routes t.dataIndex { r with stops := stops }, demands')

/-- One iteration of the `read_archive` loop body (data.py lines 269-336):
on a route-code boundary finalize the open route and start a new one
(incrementing its type's `vehicles_used`, an `AttributeError` when the
resolved vehicle has no type), then process the line's location and demand
into the current route. -/
def archiveStep (locations : List PhysicalLocation) (vehicles : List Vehicle)
    (types : List VehicleType) (fuel : Nat) (st : ReconState) (line : ArchiveLine) :
    Except PyErr ReconState :=
  let boundary : Bool :=
    match st.current with
    | none => true
    | some r => line.routeCode != r.code
  let afterBoundary : Except PyErr ReconState :=
    if boundary then
      let fin : Except PyErr (RoutesDict × List Int) :=
        match st.current with
        | some r => finalizeRoute types fuel r st.routes st.demands
        | none => .ok (st.routes, st.demands)
      match fin with
      | .error e => .error e
      | .ok (routes, demands) =>
        match find_vehicle line.horse line.trailer line.carried vehicles types with
        | none => .error .attributeError
        | some v =>
          match v.typePos with
          | none => .error .attributeError
          | some tp =>
            .ok { routes := routes, demands := demands,
                  current := some { code := line.routeCode, vehicle := v, stops := [] },
                  used := st.used.set tp (st.used.getD tp 0 + 1) }
    else .ok st
  match afterBoundary with
  | .error e => .error e
  | .ok st' =>
    match st'.current with
    | none => .error .attributeError
    | some r =>
      let sd := processLine locations line r.stops st'.demands
      .ok { st' with current := some { r with stops := sd.1 }, demands := sd.2 }

/-- The `while deliveries_sheet[...]` loop of `read_archive`: a single
left-to-right pass over the archive lines. -/
def readLoop (locations : List PhysicalLocation) (vehicles : List Vehicle)
    (types : List VehicleType) (fuel : Nat) :
    ReconState → List ArchiveLine → Except PyErr (RoutesDict × List Int)
  | st, [] => .ok (st.routes, st.demands)
  | st, line :: rest =>
    match archiveStep locations vehicles types fuel st line with
    | .error e => .error e
    | .ok st' => readLoop locations vehicles types fuel st' rest

/-- Fresh reconstruction state: every location's `demand` and every type's
`vehicles_used` start at 0 (their `__init__`s). -/
def initState (locations : List PhysicalLocation) (types : List VehicleType) : ReconState :=
  { routes := [], current := none,
    demands := List.replicate locations.length 0,
    used := List.replicate types.length 0 }

/-- `read_archive` (data.py lines 261-338).  Returns the output dict together
with the final per-location demand accumulators (the source mutates the
location objects; the accumulator list models that mutation).  Note the last
open route is never finalized: the source returns `routes` directly after
the loop. -/
def read_archive (locations : List PhysicalLocation) (vehicles : List Vehicle)
    (types : List VehicleType) (fuel : Nat) (lines : List ArchiveLine) :
    Except PyErr (RoutesDict × List Int) :=
  readLoop locations vehicles types fuel (initState locations types) lines

/-- The zero-quantity-stop removal loop of `load_archive_routes`
(data.py lines 376-381):

    index = 0
    while index < len(route):
        if route[index][1] == 0:
            route.pop(index)
        index += 1

A persisted stop is a `[locationIndex, deliveredQuantity]` pair.  The loop
is structural in a fuel argument so that it computes by reduction; since
`index` grows by 1 every iteration and the length never grows, the loop body
runs at most `route.length` times, so that much fuel is exact (once the fuel
is gone, `index ≥ length` holds anyway and the loop would exit). -/
def dropZeroAux : Nat → List (Int × Int) → Nat → List (Int × Int)
  | 0, route, _ => route
  | fuel + 1, route, index =>
    if index < route.length then
      if (route.getD index (0, 0)).2 = 0 then
        dropZeroAux fuel (route.eraseIdx index) (index + 1)
      else
        dropZeroAux fuel route (index + 1)
    else route

/-- The zero-stop removal loop started at `index = 0` on one persisted route. -/
def dropZeroLoop (route : List (Int × Int)) : List (Int × Int) :=
  dropZeroAux route.length route 0

/-- `load_archive_routes` (data.py lines 367-384) applied to the decoded
JSON value: for every tour of every vehicle type, run the zero-stop removal
loop on each route.  (The JSON string-key-to-int conversion is at the I/O
boundary; keys are already integers here.) -/
def load_archive_routes (dict : List (Int × List (List (Int × Int)))) :
    List (Int × List (List (Int × Int))) :=
  dict.map (fun kv => (kv.1, kv.2.map (fun route => dropZeroLoop route)))

/-- `max_pairs = 2500` (data.py line 511): the Bing distance-matrix
origin-destination pairing limit. -/
def max_pairs : Nat :=
  2500

/-- `rows_per_call = floor(max_pairs / len(locations))` (data.py line 513). -/
def rows_per_call (locationCount : Nat) : Nat :=
  max_pairs / locationCount

/-- The batching `while` loop of `pull_travel_data_from_bing`
(data.py lines 523-577), reduced to the partition it generates: one
`(start_row, end_row)` origin batch per request, where
`end_row = min(start_row + rows_per_call, len(locations))`.  Fuel
`locationCount` is enough since every batch advances `start_row`. -/
def batchLoop : Nat → Nat → Nat → Nat → List (Nat × Nat)
  | 0, _, _, _ => []
  | fuel + 1, n, rows, start =>
    if start < n then
      (start, min (start + rows) n) :: batchLoop fuel n rows (min (start + rows) n)
    else []

/-- The partition computation of `pull_travel_data_from_bing`
(data.py lines 508-528): divide the pairing limit by the location count
(`ZeroDivisionError` on an empty list), fail with
`ValueError("Too many locations!")` when no full origin row fits in one
request - before any request is sent - and otherwise produce the origin
batches that the request loop iterates over. -/
def pull_travel_batches (locationCount : Nat) : Except PyErr (List (Nat × Nat)) :=
  if locationCount = 0 then .error .zeroDivisionError
  else
    let rows := rows_per_call locationCount
    if rows = 0 then .error .valueError
    else .ok (batchLoop locationCount locationCount rows 0)

/-- Decidable equality of `Except` results, so that concrete runs of the
embedded functions can be checked by `decide`. -/
instance {e a : Type} [DecidableEq e] [DecidableEq a] : DecidableEq (Except e a) :=
  fun x y =>
    match x, y with
    | .ok u, .ok v =>
      if h : u = v then isTrue (by rw [h]) else isFalse (fun hh => by cases hh; exact h rfl)
    | .error u, .error v =>
      if h : u = v then isTrue (by rw [h]) else isFalse (fun hh => by cases hh; exact h rfl)
    | .ok _, .error _ => isFalse (fun hh => by cases hh)
    | .error _, .ok _ => isFalse (fun hh => by cases hh)

/-- A stop quantity clamped above at 1: what overflow normalization can at
best leave of it, since it only decrements quantities strictly above 1. -/
def clamp1 (q : Int) : Int :=
  if 1 < q then 1 else q

/-- Sum of a route's stop quantities, each clamped above at 1: the least
total the normalization loop can reach.  The loop terminates exactly on
routes whose capacity is at least this. -/
def clampedSum (stops : List Stop) : Int :=
  (stops.map (fun s => clamp1 s.delivered)).sum

/-- Sum of the quantities delivered at registry position `p` over a stop
list: what the location's demand accumulator should reflect. -/
def locSum (p : Nat) (stops : List Stop) : Int :=
  (stops.map (fun s => if s.locPos = p then s.delivered else 0)).sum

/-- The stops of the open route, if any. -/
def currentStops : Option Route → List Stop
  | none => []
  | some r => r.stops

/-- All stops of all committed routes of the output dict. -/
def dictStops (d : RoutesDict) : List Stop :=
  d.flatMap (fun kv => kv.2.flatMap (fun r => r.stops))

/-- All live stops of a reconstruction state: committed plus open route. -/
def stateStops (st : ReconState) : List Stop :=
  dictStops st.routes ++ currentStops st.current

/-- Every successfully parsed demand component of the line is non-negative
(a failed parse contributes 0 and is always fine). -/
def nonnegComponents (line : ArchiveLine) : Prop :=
  0 ≤ parseDemand line.dry ∧ 0 ≤ parseDemand line.perish ∧ 0 ≤ parseDemand line.pickByLine

instance (line : ArchiveLine) : Decidable (nonnegComponents line) := by
  unfold nonnegComponents
  infer_instance

/-- The location registry has pairwise-distinct display names, so that the
name-based `PhysicalLocation.__eq__` agrees with object identity. -/
def distinctNames (locations : List PhysicalLocation) : Prop :=
  locations.Pairwise (fun a b => a.name ≠ b.name)

/-- Concrete data shared by the witness runs below. -/
def horseH : String :=
  "H"

def trailerT : String :=
  "T"

/-- The capacity-10/20/30 registry of the spec's vehicle-fallback example. -/
def typesTen : List VehicleType :=
  [{ dataIndex := 0, name := "small", capacity := 10, vehiclesAvailable := 1 },
   { dataIndex := 1, name := "medium", capacity := 20, vehiclesAvailable := 1 },
   { dataIndex := 2, name := "large", capacity := 30, vehiclesAvailable := 1 }]

/-- Three stops of quantity 11 at three distinct locations: the spec's
overflow example. -/
def stops111 : List Stop :=
  [{ locPos := 0, delivered := 11 }, { locPos := 1, delivered := 11 },
   { locPos := 2, delivered := 11 }]

/-- Archive-line builder for the concrete runs: store code, route code and a
dry-demand cell, with fixed vehicle codes and no perishable/pick-by-line
components. -/
def mkLine (storeCode routeCode : Int) (dry : Option Int) : ArchiveLine :=
  { storeCode := storeCode, routeCode := routeCode, horse := "H", trailer := "T",
    carried := 5, dry := dry, perish := none, pickByLine := none }

/-- Location "A" holding store 1, at registry position 0. -/
def locA : PhysicalLocation :=
  { dataIndex := 0, name := "A", storeIds := [1] }

/-- Location "B" holding store 2, at registry position 1. -/
def locB : PhysicalLocation :=
  { dataIndex := 1, name := "B", storeIds := [2] }

/-- Two distinct locations sharing the display name "X" (store 1 and 2). -/
def locX0 : PhysicalLocation :=
  { dataIndex := 0, name := "X", storeIds := [1] }

def locX1 : PhysicalLocation :=
  { dataIndex := 1, name := "X", storeIds := [2] }

def typeCap1 : VehicleType :=
  { dataIndex := 0, name := "t1", capacity := 1, vehiclesAvailable := 5 }

def typeCap30 : VehicleType :=
  { dataIndex := 0, name := "t30", capacity := 30, vehiclesAvailable := 5 }

def typeCap100 : VehicleType :=
  { dataIndex := 0, name := "t100", capacity := 100, vehiclesAvailable := 5 }

/-- The synthesized vehicle every concrete run resolves (horse code "H",
falling back to the single registered type at position 0). -/
def vehH : Vehicle :=
  { name := "H", typePos := some 0 }

/-- C10 counterexample run: route 1 delivers 5 to store 1 and 3 to store 2
(both named "X", so the stops merge), then route 2 opens. -/
def lineX1 : ArchiveLine :=
  mkLine 1 1 (some 5)

def lineX2 : ArchiveLine :=
  mkLine 2 1 (some 3)

def lineX3 : ArchiveLine :=
  mkLine 1 2 (some 0)

def routeX : Route :=
  { code := 1, vehicle := vehH, stops := [{ locPos := 0, delivered := 1 }] }

def stateXa : ReconState :=
  { routes := [], demands := [5, 0], used := [1],
    current := some { code := 1, vehicle := vehH, stops := [{ locPos := 0, delivered := 5 }] } }

def stateXb : ReconState :=
  { routes := [], demands := [5, 3], used := [1],
    current := some { code := 1, vehicle := vehH, stops := [{ locPos := 0, delivered := 8 }] } }

def stateXc : ReconState :=
  { routes := [(0, [routeX])], demands := [-2, 3], used := [2],
    current := some { code := 2, vehicle := vehH, stops := [{ locPos := 0, delivered := 0 }] } }

/-- C2 counterexample run: route 1 delivers one pallet each to two distinct
locations (total 2) with vehicle capacity 1; route 2's first line triggers
the normalization loop, which then never terminates. -/
def lineY1 : ArchiveLine :=
  mkLine 1 1 (some 1)

def lineY2 : ArchiveLine :=
  mkLine 2 1 (some 1)

def lineY3 : ArchiveLine :=
  mkLine 1 2 (some 0)

def stateYa : ReconState :=
  { routes := [], demands := [1, 0], used := [1],
    current := some { code := 1, vehicle := vehH, stops := [{ locPos := 0, delivered := 1 }] } }

def stateYb : ReconState :=
  { routes := [], demands := [1, 1], used := [1],
    current := some { code := 1, vehicle := vehH,
                      stops := [{ locPos := 1, delivered := 1 }, { locPos := 0, delivered := 1 }] } }

/-- C1/C4/C7 witness runs: a first route at store 1, closed by a second route. -/
def lineZ1 : ArchiveLine :=
  mkLine 1 1 (some 5)

def lineZ2 : ArchiveLine :=
  mkLine 1 2 (some 3)

def lineZneg : ArchiveLine :=
  mkLine 1 1 (some (-5))

def routeZ : Route :=
  { code := 1, vehicle := vehH, stops := [{ locPos := 0, delivered := 5 }] }

def routeZneg : Route :=
  { code := 1, vehicle := vehH, stops := [{ locPos := 0, delivered := -5 }] }

/-- The within-route portion of the `read_archive` loop: process a run of
archive lines that all belong to the open route (no boundary in between),
threading the stop list and the demand accumulators through `processLine`. -/
def processLines (locations : List PhysicalLocation) (lines : List ArchiveLine)
    (stops : List Stop) (demands : List Int) : List Stop × List Int :=
  match lines with
  | [] => (stops, demands)
  | line :: rest =>
    let sd := processLine locations line stops demands
    processLines locations rest sd.1 sd.2

/-!
Helper lemmas.
-/

/-- `vehicles.index(code)` with a string argument never matches: Python
`Vehicle.__eq__` returns `False` against a non-`Vehicle`. -/
theorem pyVehiclesIndex_eq_none (vehicles : List Vehicle) (code : String) :
    pyVehiclesIndex vehicles code = none := by
  induction vehicles with
  | nil => rfl
  | cons v rest ih => simp [pyVehiclesIndex, vehicleEqPy, ih]

/-- Loop invariant of the closest-capacity scan: starting from a best
candidate that is the strict first minimum of the first `i` registry entries,
the scan over the remaining entries returns the strict first minimum of the
whole registry. -/
theorem closestTypeAux_invariant (carried : Int) :
    ∀ (rest : List VehicleType) (types : List VehicleType) (i bi : Nat) (bt : VehicleType),
      types.drop i = rest →
      bi < i →
      types[bi]? = some bt →
      (∀ (j : Nat) (tj : VehicleType), j < i → types[j]? = some tj → typeDiff bt carried ≤ typeDiff tj carried) →
      (∀ (j : Nat) (tj : VehicleType), j < bi → types[j]? = some tj → typeDiff bt carried < typeDiff tj carried) →
      ∃ (p : Nat) (t : VehicleType),
        closestTypeAux carried rest i (some (bi, typeDiff bt carried)) =
          some (p, typeDiff t carried) ∧
        types[p]? = some t ∧
        (∀ (j : Nat) (tj : VehicleType), types[j]? = some tj → typeDiff t carried ≤ typeDiff tj carried) ∧
        (∀ (j : Nat) (tj : VehicleType), j < p → types[j]? = some tj → typeDiff t carried < typeDiff tj carried) := by
  intro rest
  induction rest with
  | nil =>
    intro types i bi bt hdrop hbi hget hle hlt
    refine ⟨bi, bt, rfl, hget, ?_, hlt⟩
    intro j tj hj
    have hlen : types.length ≤ i := by
      have hl := congrArg List.length hdrop
      simp only [List.length_drop, List.length_nil] at hl
      omega
    have hjlen : j < types.length := by
      rcases List.getElem?_eq_some_iff.mp hj with ⟨h, _⟩
      exact h
    exact hle j tj (by omega) hj
  | cons t' rest' ih =>
    intro types i bi bt hdrop hbi hget hle hlt
    have hti : types[i]? = some t' := by
      have h0 : (types.drop i)[0]? = some t' := by rw [hdrop]; simp
      rw [List.getElem?_drop] at h0
      simpa using h0
    have hdrop' : types.drop (i + 1) = rest' := by
      have ht : (types.drop i).tail = rest' := by rw [hdrop]; rfl
      rwa [List.tail_drop] at ht
    rw [closestTypeAux]
    by_cases hc : typeDiff t' carried < typeDiff bt carried
    · simp only [hc, if_true]
      apply ih types (i + 1) i t' hdrop' (by omega) hti
      · intro j tj hj hgj
        rcases Nat.lt_succ_iff_lt_or_eq.mp hj with h | h
        · exact le_of_lt (lt_of_lt_of_le hc (hle j tj h hgj))
        · subst h
          rw [hti] at hgj
          cases hgj
          exact le_refl _
      · intro j tj hj hgj
        exact lt_of_lt_of_le hc (hle j tj (by omega) hgj)
    · simp only [hc, if_false]
      apply ih types (i + 1) bi bt hdrop' (by omega) hget
      · intro j tj hj hgj
        rcases Nat.lt_succ_iff_lt_or_eq.mp hj with h | h
        · exact hle j tj h hgj
        · subst h
          rw [hti] at hgj
          cases hgj
          exact not_lt.mp hc
      · exact hlt

/-- If every stop quantity is at most 1 while the running total still exceeds
the capacity, the normalization loop makes no progress and exhausts any fuel. -/
theorem normLoop_none_of_all_le_one (cap : Int) :
    ∀ (fuel : Nat) (stops : List Stop) (demands : List Int) (ind : Nat) (total : Int),
      cap < total → (∀ s ∈ stops, s.delivered ≤ 1) →
      normLoop cap fuel stops demands ind total = none := by
  intro fuel
  induction fuel with
  | zero =>
    intro stops demands ind total hlt _
    rw [normLoop]
    simp [not_le.mpr hlt]
  | succ fuel ih =>
    intro stops demands ind total hlt hsmall
    rw [normLoop]
    simp only [not_le.mpr hlt, if_false]
    cases hg : stops[ind]? with
    | none => rfl
    | some s =>
      have hs : s.delivered ≤ 1 := hsmall s (List.getElem?_mem hg)
      simp only [not_lt.mpr hs, if_false]
      exact ih stops demands ((ind + 1) % stops.length) total hlt hsmall

/-!
Claim theorems.
-/

/-- C9: travel-matrix acquisition computes `rows_per_call` as the floor of
the pairing limit over the location count; whenever that is 0 (and the
location list is non-empty, so the division itself succeeds) it fails with
the fatal `ValueError` before producing any batch; and with the limit 2500
and 5 locations it yields 500 rows per call and exactly one batch `(0, 5)`
covering all 5 origins. -/
theorem pull_travel_batches_spec :
    (∀ n : Nat, 0 < n → rows_per_call n = 0 →
      pull_travel_batches n = .error .valueError) ∧
    rows_per_call 5 = 500 ∧
    pull_travel_batches 5 = .ok [(0, 5)] := by
  refine ⟨?_, by decide, by decide⟩
  intro n hn hz
  unfold pull_travel_batches
  rw [if_neg (by omega)]
  simp [hz]

/-- C9 witness: 2501 locations exceed the 2500-pair limit, so zero rows fit
per call and partitioning fails fatally; 5 locations give 500 rows per call. -/
theorem pull_travel_batches_spec_witness :
    (0 < 2501 ∧ rows_per_call 2501 = 0 ∧
      pull_travel_batches 2501 = .error .valueError) ∧
    rows_per_call 5 = 500 :=
  ⟨⟨by decide, by decide,
    pull_travel_batches_spec.1 2501 (by decide) (by decide)⟩,
   pull_travel_batches_spec.2.1⟩

/-- C8 (code bug): reloading a persisted route set is meant to drop every
zero-quantity stop, but the removal loop advances its index immediately
after a `pop`, skipping the element that slid into the popped slot; on the
route `[[1,0],[2,0],[3,5]]` the adjacent zero stop `[2,0]` survives. -/
theorem load_archive_routes_adjacent_zero_bug :
    load_archive_routes [(0, [[(1, 0), (2, 0), (3, 5)]])] =
      [(0, [[(2, 0), (3, 5)]])] := by
  decide

/-- C6 counterexample: with an empty `VehicleType` registry (and no code
matches), `find_vehicle` does not fail - it returns a synthetic `Vehicle`
named after the horse code whose vehicle type is Python `None`. -/
theorem find_vehicle_empty_registry_returns :
    find_vehicle horseH trailerT 7 [] [] = some { name := horseH, typePos := none } := by
  decide

/-- C6 (amended): with an empty `VehicleType` registry, `find_vehicle`
itself returns a `Vehicle` with no type; reconstruction then fails on the
very first archive line - with an `AttributeError` when incrementing the
missing type's `vehicles_used` - so it cannot proceed. -/
theorem read_archive_empty_types_error :
    ∀ (locations : List PhysicalLocation) (vehicles : List Vehicle) (fuel : Nat)
      (line : ArchiveLine) (rest : List ArchiveLine),
      read_archive locations vehicles [] fuel (line :: rest) =
        .error .attributeError := by
  intro locations vehicles fuel line rest
  have hfv : find_vehicle line.horse line.trailer line.carried vehicles [] =
      some { name := line.horse, typePos := none } := by
    simp [find_vehicle, pyVehiclesIndex_eq_none, closestTypePos, closestTypeAux]
  simp [read_archive, readLoop, archiveStep, initState, hfv]

/-- C5: when neither the horse nor the trailer code resolves to a registered
vehicle, `find_vehicle` over a non-empty type registry returns a fresh
`Vehicle` named after the horse code whose type is the first registered type
minimizing `|capacity - carried|` (strict-less-than scan, so the earliest
minimum wins); in particular with capacities `[10, 20, 30]` and carried load
18 it picks the position-1 type, whose capacity is 20. -/
theorem find_vehicle_fallback_closest :
    (∀ (horse trailer : String) (carried : Int) (vehicles : List Vehicle)
       (types : List VehicleType),
       types ≠ [] →
       (∀ v ∈ vehicles, v.name ≠ horse ∧ v.name ≠ trailer) →
       ∃ (p : Nat) (t : VehicleType),
         find_vehicle horse trailer carried vehicles types =
           some { name := horse, typePos := some p } ∧
         types[p]? = some t ∧
         (∀ (j : Nat) (tj : VehicleType), types[j]? = some tj →
           typeDiff t carried ≤ typeDiff tj carried) ∧
         (∀ (j : Nat) (tj : VehicleType), j < p → types[j]? = some tj →
           typeDiff t carried < typeDiff tj carried)) ∧
    find_vehicle horseH trailerT 18 [] typesTen =
      some { name := horseH, typePos := some 1 } ∧
    (typesTen[1]?).map (fun t => t.capacity) = some 20 := by
  refine ⟨?_, by decide, by decide⟩
  intro horse trailer carried vehicles types hne _hno
  match types, hne with
  | t0 :: ts, _ =>
    have hspec := closestTypeAux_invariant carried ts (t0 :: ts) 1 0 t0 rfl
      (by omega) (by simp)
      (by
        intro j tj hj hgj
        interval_cases j
        · simp at hgj
          cases hgj
          exact le_refl _)
      (by intro j tj hj; omega)
    rcases hspec with ⟨p, t, haux, hget, hle, hlt⟩
    refine ⟨p, t, ?_, hget, hle, hlt⟩
    rw [find_vehicle, pyVehiclesIndex_eq_none, pyVehiclesIndex_eq_none]
    rw [closestTypePos, closestTypeAux, haux]
    rfl

/-- C5 witness: the fallback example with capacities 10/20/30 and carried
load 18 satisfies the general minimization statement. -/
theorem find_vehicle_fallback_closest_witness :
    (typesTen ≠ [] ∧ (∀ v ∈ ([] : List Vehicle), v.name ≠ horseH ∧ v.name ≠ trailerT)) ∧
    (∃ (p : Nat) (t : VehicleType),
      find_vehicle horseH trailerT 18 [] typesTen =
        some { name := horseH, typePos := some p } ∧
      typesTen[p]? = some t ∧
      (∀ (j : Nat) (tj : VehicleType), typesTen[j]? = some tj →
        typeDiff t 18 ≤ typeDiff tj 18) ∧
      (∀ (j : Nat) (tj : VehicleType), j < p → typesTen[j]? = some tj →
        typeDiff t 18 < typeDiff tj 18)) :=
  ⟨⟨by decide, by simp⟩,
   find_vehicle_fallback_closest.1 horseH trailerT 18 [] typesTen (by decide) (by simp)⟩

/-- C3: one iteration of the overflow-normalization loop always advances the
cyclic index to the next stop - whether or not it decremented - and
decrements the current stop exactly when its quantity is strictly greater
than 1; and on the spec's example (three stops of 11, capacity 30) the loop
reaches `10, 10, 10` in exactly one full cyclic pass: three iterations
suffice and two do not. -/
theorem normLoop_always_advances_and_example :
    (∀ (cap : Int) (fuel : Nat) (stops : List Stop) (demands : List Int)
       (ind : Nat) (total : Int) (s : Stop),
       cap < total → stops[ind]? = some s →
       ((s.delivered ≤ 1 →
          normLoop cap (fuel + 1) stops demands ind total =
            normLoop cap fuel stops demands ((ind + 1) % stops.length) total) ∧
        (1 < s.delivered →
          normLoop cap (fuel + 1) stops demands ind total =
            normLoop cap fuel (stops.set ind { s with delivered := s.delivered - 1 })
              (demandSub demands s.locPos) ((ind + 1) % stops.length) (total - 1)))) ∧
    normLoop 30 3 stops111 [11, 11, 11] 0 33 =
      some ([{ locPos := 0, delivered := 10 }, { locPos := 1, delivered := 10 },
             { locPos := 2, delivered := 10 }], [10, 10, 10]) ∧
    normLoop 30 2 stops111 [11, 11, 11] 0 33 = none := by
  refine ⟨?_, by decide, by decide⟩
  intro cap fuel stops demands ind total s hlt hs
  constructor
  · intro hle
    rw [normLoop]
    simp [not_le.mpr hlt, hs, not_lt.mpr hle]
  · intro hgt
    rw [normLoop]
    simp [not_le.mpr hlt, hs, hgt]

/-- C3 witness: the step rule instantiated on a concrete state - a stop of
quantity 2 at the current index is decremented and the index advances. -/
theorem normLoop_always_advances_and_example_witness :
    ((0 : Int) < 2 ∧ ([{ locPos := 0, delivered := 2 }] : List Stop)[0]? =
      some { locPos := 0, delivered := 2 } ∧ (1 : Int) < 2) ∧
    (normLoop 0 1 [{ locPos := 0, delivered := 2 }] [2] 0 2 =
      normLoop 0 0 [{ locPos := 0, delivered := 1 }] [1] 1 1) :=
  ⟨⟨by decide, by decide, by decide⟩, by
    have h := (normLoop_always_advances_and_example.1 0 0
      [{ locPos := 0, delivered := 2 }] [2] 0 2 { locPos := 0, delivered := 2 }
      (by decide) (by decide)).2 (by decide)
    simpa [demandSub] using h⟩

/-- On the archive `lineY1, lineY2, lineY3` (route 1 delivers one pallet to
each of two locations, vehicle capacity 1, then route 2 opens, triggering
finalization), the overflow-normalization loop can never finish - every stop
already delivers at most 1 while the total still exceeds the capacity - so
`read_archive` fails for every amount of fuel. -/
theorem read_archive_divergent_input_aux :
    ∀ fuel : Nat,
      read_archive [locA, locB] [] [typeCap1] fuel [lineY1, lineY2, lineY3] =
        .error .normFailure := by
  intro fuel
  have h1 : archiveStep [locA, locB] [] [typeCap1] fuel
      (initState [locA, locB] [typeCap1]) lineY1 = .ok stateYa := rfl
  have h2 : archiveStep [locA, locB] [] [typeCap1] fuel stateYa lineY2 = .ok stateYb := rfl
  have hnorm : normLoop 1 fuel
      [{ locPos := 1, delivered := 1 }, { locPos := 0, delivered := 1 }] [1, 1] 0 2 = none := by
    apply normLoop_none_of_all_le_one 1 fuel _ _ 0 2 (by decide)
    intro s hs
    simp only [List.mem_cons, List.mem_singleton, List.not_mem_nil, or_false] at hs
    rcases hs with rfl | rfl <;> decide
  have h3 : archiveStep [locA, locB] [] [typeCap1] fuel stateYb lineY3 =
      .error .normFailure := by
    simp only [archiveStep, stateYb, finalizeRoute]
    rw [show sumDelivered [{ locPos := 1, delivered := 1 }, { locPos := 0, delivered := 1 }] =
      2 from rfl]
    simp [hnorm, vehH, lineY3, mkLine, typeCap1]
  simp [read_archive, readLoop, h1, h2, h3]

/-- Summing a mapped list after replacing the element at `i`. -/
theorem map_sum_set (f : Stop → Int) :
    ∀ (l : List Stop) (i : Nat) (s s' : Stop), l[i]? = some s →
      ((l.set i s').map f).sum = (l.map f).sum - f s + f s' := by
  intro l
  induction l with
  | nil => intro i s s' h; simp at h
  | cons a t ih =>
    intro i s s' h
    cases i with
    | zero =>
      simp only [List.getElem?_cons_zero, Option.some_inj] at h
      subst h
      simp only [List.set_cons_zero, List.map_cons, List.sum_cons]
      omega
    | succ i =>
      simp only [List.getElem?_cons_succ] at h
      simp only [List.set_cons_succ, List.map_cons, List.sum_cons, ih i s s' h]
      omega

/-- A quantity at most 1 is its own clamp. -/
theorem clamp1_of_le_one {q : Int} (h : q ≤ 1) : clamp1 q = q := by
  simp [clamp1, not_lt.mpr h]

/-- Decrementing a quantity strictly above 1 does not change its clamp. -/
theorem clamp1_dec {q : Int} (h : 1 < q) : clamp1 (q - 1) = clamp1 q := by
  unfold clamp1
  split_ifs <;> omega

/-- A normalization decrement lowers the plain sum by one. -/
theorem sumDelivered_set_dec (stops : List Stop) (i : Nat) (s : Stop)
    (h : stops[i]? = some s) :
    sumDelivered (stops.set i { s with delivered := s.delivered - 1 }) =
      sumDelivered stops - 1 := by
  have hs := map_sum_set (fun x => x.delivered) stops i s
    { s with delivered := s.delivered - 1 } h
  simp only [sumDelivered]
  simp only at hs
  rw [hs]
  omega

/-- A normalization decrement leaves the clamped sum unchanged. -/
theorem clampedSum_set_dec (stops : List Stop) (i : Nat) (s : Stop)
    (h : stops[i]? = some s) (hb : 1 < s.delivered) :
    clampedSum (stops.set i { s with delivered := s.delivered - 1 }) =
      clampedSum stops := by
  have hs := map_sum_set (fun x => clamp1 x.delivered) stops i s
    { s with delivered := s.delivered - 1 } h
  simp only [clampedSum]
  simp only at hs
  rw [hs, clamp1_dec hb]
  omega

/-- When every stop is at most 1, the clamped sum is the plain sum. -/
theorem clampedSum_eq_of_all_le_one :
    ∀ (stops : List Stop), (∀ s ∈ stops, s.delivered ≤ 1) →
      clampedSum stops = sumDelivered stops := by
  intro stops
  induction stops with
  | nil => intro _; rfl
  | cons a t ih =>
    intro h
    simp only [clampedSum, sumDelivered, List.map_cons, List.sum_cons] at *
    rw [clamp1_of_le_one (h a (by simp)), ih (fun s hs => h s (by simp [hs]))]

/-- If the plain sum strictly exceeds the clamped sum, some stop still
delivers strictly more than 1. -/
theorem exists_big_of_clamped_lt (stops : List Stop)
    (h : clampedSum stops < sumDelivered stops) :
    ∃ (j : Nat) (s : Stop), stops[j]? = some s ∧ 1 < s.delivered := by
  by_contra hno
  push_neg at hno
  have hall : ∀ s ∈ stops, s.delivered ≤ 1 := by
    intro s hs
    obtain ⟨j, hj⟩ := List.mem_iff_getElem?.mp hs
    exact hno j s hj
  rw [clampedSum_eq_of_all_le_one stops hall] at h
  omega

/-- Stepping the cyclic index from `ind` to a target `j` (both in range):
the offset `(j + n - ind) % n` lands on `j`. -/
theorem cyc_offset {ind j n : Nat} (hind : ind < n) (hj : j < n) :
    (ind + (j + n - ind) % n) % n = j := by
  have h1 : (ind + (j + n - ind) % n) % n = (ind + (j + n - ind)) % n := by
    conv_lhs => rw [Nat.add_mod]
    conv_rhs => rw [Nat.add_mod]
    rw [Nat.mod_mod_of_dvd]
    exact dvd_refl n
  rw [h1]
  have h2 : ind + (j + n - ind) = j + n := by omega
  rw [h2, Nat.add_mod_right]
  exact Nat.mod_eq_of_lt hj

/-- One skip iteration of the normalization loop: the current stop delivers
at most 1, nothing changes except the index advancing cyclically. -/
theorem normLoop_step_skip (cap : Int) (fuel : Nat) (stops : List Stop)
    (demands : List Int) (ind : Nat) (total : Int) (s : Stop)
    (hlt : cap < total) (hs : stops[ind]? = some s) (hle : s.delivered ≤ 1) :
    normLoop cap (fuel + 1) stops demands ind total =
      normLoop cap fuel stops demands ((ind + 1) % stops.length) total := by
  rw [normLoop]
  simp [not_le.mpr hlt, hs, not_lt.mpr hle]

/-- One decrement iteration of the normalization loop: the current stop
delivers strictly more than 1, so it and its location's accumulator drop by
one, the running total drops by one, and the index advances cyclically. -/
theorem normLoop_step_dec (cap : Int) (fuel : Nat) (stops : List Stop)
    (demands : List Int) (ind : Nat) (total : Int) (s : Stop)
    (hlt : cap < total) (hs : stops[ind]? = some s) (hgt : 1 < s.delivered) :
    normLoop cap (fuel + 1) stops demands ind total =
      normLoop cap fuel (stops.set ind { s with delivered := s.delivered - 1 })
        (demandSub demands s.locPos) ((ind + 1) % stops.length) (total - 1) := by
  rw [normLoop]
  simp [not_le.mpr hlt, hs, hgt]

/-- While the total exceeds the capacity and some reachable stop (at cyclic
offset `d` from the current index) still delivers more than 1, the loop
reaches a decrementable index after finitely many pure skip steps. -/
theorem normLoop_reach_dec (cap : Int) :
    ∀ (d : Nat) (stops : List Stop) (demands : List Int) (ind : Nat) (total : Int),
      cap < total →
      ind < stops.length →
      (∃ s : Stop, stops[(ind + d) % stops.length]? = some s ∧ 1 < s.delivered) →
      ∃ (k ind' : Nat) (s : Stop),
        ind' < stops.length ∧ stops[ind']? = some s ∧ 1 < s.delivered ∧
        ∀ fuel : Nat, normLoop cap (k + fuel) stops demands ind total =
          normLoop cap fuel stops demands ind' total := by
  intro d
  induction d with
  | zero =>
    intro stops demands ind total hlt hind hbig
    obtain ⟨s, hgs, hbs⟩ := hbig
    rw [Nat.add_zero, Nat.mod_eq_of_lt hind] at hgs
    exact ⟨0, ind, s, hind, hgs, hbs, fun fuel => by rw [Nat.zero_add]⟩
  | succ d ihd =>
    intro stops demands ind total hlt hind hbig
    have h0 : 0 < stops.length := by omega
    obtain ⟨s0, hgs0⟩ : ∃ s0 : Stop, stops[ind]? = some s0 :=
      ⟨stops[ind], List.getElem?_eq_getElem hind⟩
    by_cases hb0 : 1 < s0.delivered
    · exact ⟨0, ind, s0, hind, hgs0, hb0, fun fuel => by rw [Nat.zero_add]⟩
    · have hind1 : (ind + 1) % stops.length < stops.length := Nat.mod_lt _ h0
      have hshift : ((ind + 1) % stops.length + d) % stops.length =
          (ind + (d + 1)) % stops.length := by
        rw [Nat.mod_add_mod]
        congr 1
        omega
      obtain ⟨k, ind', s, hind', hgs, hbs, hrun⟩ :=
        ihd stops demands ((ind + 1) % stops.length) total hlt hind1
          (by rw [hshift]; exact hbig)
      refine ⟨k + 1, ind', s, hind', hgs, hbs, fun fuel => ?_⟩
      have hstep := normLoop_step_skip cap (k + fuel) stops demands ind total s0 hlt hgs0
        (not_lt.mp hb0)
      calc normLoop cap (k + 1 + fuel) stops demands ind total
          = normLoop cap (k + fuel + 1) stops demands ind total := by
            congr 1
            omega
        _ = normLoop cap (k + fuel) stops demands ((ind + 1) % stops.length) total := hstep
        _ = normLoop cap fuel stops demands ind' total := hrun fuel

/-- Sufficient fuel exists for the normalization loop whenever the capacity
is at least the clamped stop-quantity sum: induction on the excess total. -/
theorem normLoop_terminates_aux (cap : Int) :
    ∀ (m : Nat) (stops : List Stop) (demands : List Int) (ind : Nat) (total : Int),
      (total - cap).toNat ≤ m →
      total = sumDelivered stops →
      clampedSum stops ≤ cap →
      ind < stops.length →
      ∃ (fuel : Nat) (out : List Stop × List Int),
        normLoop cap fuel stops demands ind total = some out := by
  intro m
  induction m with
  | zero =>
    intro stops demands ind total hm _ _ _
    have hle : total ≤ cap := by omega
    exact ⟨0, (stops, demands), by rw [normLoop]; simp [hle]⟩
  | succ m ihm =>
    intro stops demands ind total hm htot hcl hind
    by_cases hle : total ≤ cap
    · exact ⟨0, (stops, demands), by rw [normLoop]; simp [hle]⟩
    · have hlt : cap < total := not_le.mp hle
      have h0 : 0 < stops.length := by omega
      obtain ⟨j, s, hj, hbs⟩ := exists_big_of_clamped_lt stops (by omega)
      have hjlen : j < stops.length := by
        rcases List.getElem?_eq_some_iff.mp hj with ⟨h, _⟩
        exact h
      obtain ⟨k, ind', s', hind', hgs, hbs', hrun⟩ :=
        normLoop_reach_dec cap ((j + stops.length - ind) % stops.length)
          stops demands ind total hlt hind
          ⟨s, by rw [cyc_offset hind hjlen]; exact hj, hbs⟩
      have hlen' :
          (stops.set ind' { s' with delivered := s'.delivered - 1 }).length =
            stops.length := by
        rw [List.length_set]
      obtain ⟨fuel, out, hrec⟩ := ihm
        (stops.set ind' { s' with delivered := s'.delivered - 1 })
        (demandSub demands s'.locPos) ((ind' + 1) % stops.length) (total - 1)
        (by omega)
        (by rw [sumDelivered_set_dec stops ind' s' hgs]; omega)
        (by rw [clampedSum_set_dec stops ind' s' hgs hbs']; exact hcl)
        (by rw [hlen']; exact Nat.mod_lt _ h0)
      refine ⟨k + (fuel + 1), out, ?_⟩
      rw [hrun (fuel + 1), normLoop_step_dec cap fuel stops demands ind' total s' hlt hgs hbs']
      exact hrec

/-- C2 (amended): reconstruction is one pass over the archive lines, but it
need not terminate: the overflow-normalization loop run at each route
finalization admits sufficient fuel - the Python loop terminates - exactly
when it can drive the total down to the capacity, which holds whenever the
vehicle's capacity is at least the route's stop-quantity sum with every
quantity clamped above at 1 (the counterexample input violates this and
loops forever). -/
theorem normLoop_terminates_of_clamped_le :
    ∀ (cap : Int) (stops : List Stop) (demands : List Int),
      clampedSum stops ≤ cap →
      ∃ (fuel : Nat) (out : List Stop × List Int),
        normLoop cap fuel stops demands 0 (sumDelivered stops) = some out := by
  intro cap stops demands hcl
  by_cases hle : sumDelivered stops ≤ cap
  · exact ⟨0, (stops, demands), by rw [normLoop]; simp [hle]⟩
  · have hne : stops ≠ [] := by
      rintro rfl
      simp [sumDelivered, clampedSum] at *
      omega
    exact normLoop_terminates_aux cap (sumDelivered stops - cap).toNat stops demands 0
      (sumDelivered stops) (le_refl _) rfl hcl (List.length_pos.mpr hne)

/-- C2 amended witness: the capacity-30 route with stops 11, 11, 11 has
clamped sum 3 at most 30, so normalization admits sufficient fuel. -/
theorem normLoop_terminates_of_clamped_le_witness :
    clampedSum stops111 ≤ 30 ∧
    ∃ (fuel : Nat) (out : List Stop × List Int),
      normLoop 30 fuel stops111 [11, 11, 11] 0 (sumDelivered stops111) = some out :=
  ⟨by decide, normLoop_terminates_of_clamped_le 30 stops111 [11, 11, 11] (by decide)⟩

/-- Reading back the element just written by `List.set`. -/
theorem getElem?_set_self {α : Type} :
    ∀ (l : List α) (i : Nat) (a : α), i < l.length → (l.set i a)[i]? = some a := by
  intro l
  induction l with
  | nil => intro i a h; simp at h
  | cons b t ih =>
    intro i a h
    cases i with
    | zero => simp
    | succ i =>
      simp only [List.set_cons_succ, List.getElem?_cons_succ]
      exact ih i a (by simpa using h)

/-- Reading any other position after `List.set`. -/
theorem getElem?_set_other {α : Type} :
    ∀ (l : List α) (i j : Nat) (a : α), i ≠ j → (l.set i a)[j]? = l[j]? := by
  intro l
  induction l with
  | nil => intro i j a _; simp
  | cons b t ih =>
    intro i j a hne
    cases i with
    | zero =>
      cases j with
      | zero => omega
      | succ j => simp
    | succ i =>
      cases j with
      | zero => simp
      | succ j =>
        simp only [List.set_cons_succ, List.getElem?_cons_succ]
        exact ih i j a (by omega)

/-- `getD` of the element just written by `List.set`. -/
theorem getD_set_self (l : List Int) (i : Nat) (v : Int) (h : i < l.length) :
    (l.set i v).getD i 0 = v := by
  rw [List.getD_eq_getElem?_getD, getElem?_set_self l i v h]
  rfl

/-- `getD` at any other position after `List.set`. -/
theorem getD_set_other (l : List Int) (i j : Nat) (v : Int) (h : i ≠ j) :
    (l.set i v).getD j 0 = l.getD j 0 := by
  rw [List.getD_eq_getElem?_getD, getElem?_set_other l i j v h,
    List.getD_eq_getElem?_getD]

/-- `locSum` over a cons cell. -/
theorem locSum_cons (p : Nat) (s : Stop) (l : List Stop) :
    locSum p (s :: l) = (if s.locPos = p then s.delivered else 0) + locSum p l := by
  simp [locSum]

/-- `locSum` distributes over append. -/
theorem locSum_append (p : Nat) (a b : List Stop) :
    locSum p (a ++ b) = locSum p a + locSum p b := by
  simp [locSum]

/-- A sum of per-location contributions of non-negative stops is non-negative. -/
theorem locSum_nonneg (p : Nat) :
    ∀ (stops : List Stop), (∀ s ∈ stops, 0 ≤ s.delivered) → 0 ≤ locSum p stops := by
  intro stops
  induction stops with
  | nil => intro _; simp [locSum]
  | cons a t ih =>
    intro h
    rw [locSum_cons]
    have h0 : 0 ≤ a.delivered := h a (by simp)
    have h1 : 0 ≤ locSum p t := ih (fun s hs => h s (by simp [hs]))
    split <;> omega

/-- A resolved location index is in range of the registry. -/
theorem find_location_lt :
    ∀ (locations : List PhysicalLocation) (code : Int) (p : Nat),
      find_location code locations = some p → p < locations.length := by
  intro locations
  induction locations with
  | nil => intro code p h; simp [find_location, findLocIdx] at h
  | cons a t ih =>
    intro code p h
    rw [find_location, findLocIdx] at h
    by_cases hc : a.storeIds.contains code
    · rw [if_pos hc] at h
      cases h
      simp
    · rw [if_neg hc] at h
      cases hq : findLocIdx code t with
      | none => rw [hq] at h; simp at h
      | some q =>
        rw [hq] at h
        simp only [Option.map_some', Option.some_inj] at h
        have := ih code q hq
        simp only [List.length_cons]
        omega

/-- With pairwise-distinct display names, the name-based Python location
equality agrees with registry-position identity. -/
theorem locNameEq_eq_of_distinct (locations : List PhysicalLocation)
    (hdn : distinctNames locations) (p q : Nat)
    (hp : p < locations.length) (hq : q < locations.length)
    (h : locNameEq locations p q = true) : p = q := by
  by_contra hne
  rw [locNameEq, List.getElem?_eq_getElem hp, List.getElem?_eq_getElem hq] at h
  have hnames : locations[p].name = locations[q].name := by
    simpa using h
  rcases Nat.lt_or_ge p q with hlt | hge
  · exact (List.pairwise_iff_getElem.mp hdn p q hp hq hlt) hnames
  · have hlt : q < p := by omega
    exact (List.pairwise_iff_getElem.mp hdn q p hq hp hlt) hnames.symm

/-- The Python location equality is reflexive on valid positions. -/
theorem locNameEq_refl (locations : List PhysicalLocation) (p : Nat)
    (hp : p < locations.length) : locNameEq locations p p = true := by
  rw [locNameEq, List.getElem?_eq_getElem hp]
  simp

/-- When the normalization loop finishes, the stop-quantity sum is within
the capacity (the loop's while-condition is false on exit, and the running
total tracks the sum). -/
theorem normLoop_sum_le (cap : Int) :
    ∀ (fuel : Nat) (stops : List Stop) (demands : List Int) (ind : Nat) (total : Int)
      (stops' : List Stop) (demands' : List Int),
      normLoop cap fuel stops demands ind total = some (stops', demands') →
      total = sumDelivered stops →
      sumDelivered stops' ≤ cap := by
  intro fuel
  induction fuel with
  | zero =>
    intro stops demands ind total stops' demands' h htot
    rw [normLoop] at h
    by_cases hle : total ≤ cap
    · rw [if_pos hle] at h
      cases h
      omega
    · rw [if_neg hle] at h
      cases h
  | succ fuel ih =>
    intro stops demands ind total stops' demands' h htot
    rw [normLoop] at h
    by_cases hle : total ≤ cap
    · rw [if_pos hle] at h
      cases h
      omega
    · rw [if_neg hle] at h
      cases hg : stops[ind]? with
      | none => rw [hg] at h; cases h
      | some s =>
        rw [hg] at h
        simp only at h
        by_cases hb : 1 < s.delivered
        · rw [if_pos hb] at h
          exact ih _ _ _ _ _ _ h (by rw [sumDelivered_set_dec stops ind s hg]; omega)
        · rw [if_neg hb] at h
          exact ih _ _ _ _ _ _ h htot

/-- Pointwise effect of the normalization loop on each stop: the position in
the route and the location reference are unchanged, the quantity never grows,
and it never drops below the smaller of its original value and 1 (so a stop
at 1 is untouched and a non-negative stop stays non-negative). -/
theorem normLoop_pointwise (cap : Int) :
    ∀ (fuel : Nat) (stops : List Stop) (demands : List Int) (ind : Nat) (total : Int)
      (stops' : List Stop) (demands' : List Int),
      normLoop cap fuel stops demands ind total = some (stops', demands') →
      stops'.length = stops.length ∧
      ∀ (i : Nat) (s : Stop), stops[i]? = some s →
        ∃ s' : Stop, stops'[i]? = some s' ∧ s'.locPos = s.locPos ∧
          s'.delivered ≤ s.delivered ∧ min s.delivered 1 ≤ s'.delivered := by
  intro fuel
  induction fuel with
  | zero =>
    intro stops demands ind total stops' demands' h
    rw [normLoop] at h
    by_cases hle : total ≤ cap
    · rw [if_pos hle] at h
      cases h
      exact ⟨rfl, fun i s hs => ⟨s, hs, rfl, le_refl _, by omega⟩⟩
    · rw [if_neg hle] at h
      cases h
  | succ fuel ih =>
    intro stops demands ind total stops' demands' h
    rw [normLoop] at h
    by_cases hle : total ≤ cap
    · rw [if_pos hle] at h
      cases h
      exact ⟨rfl, fun i s hs => ⟨s, hs, rfl, le_refl _, by omega⟩⟩
    · rw [if_neg hle] at h
      cases hg : stops[ind]? with
      | none => rw [hg] at h; cases h
      | some s0 =>
        rw [hg] at h
        simp only at h
        by_cases hb : 1 < s0.delivered
        · rw [if_pos hb] at h
          obtain ⟨hlen, hpt⟩ := ih _ _ _ _ _ _ h
          have hindlen : ind < stops.length := by
            rcases List.getElem?_eq_some_iff.mp hg with ⟨hl, _⟩
            exact hl
          refine ⟨by rw [hlen, List.length_set], ?_⟩
          intro i s hs
          by_cases hi : ind = i
          · subst hi
            rw [hg] at hs
            injection hs with hss
            subst hss
            obtain ⟨s', hs', hpos, hle', hge'⟩ := hpt ind
              { s0 with delivered := s0.delivered - 1 }
              (getElem?_set_self stops ind _ hindlen)
            refine ⟨s', hs', hpos, by simp at hle' ⊢; omega, ?_⟩
            simp at hge' ⊢
            omega
          · obtain ⟨s', hs', hpos, hle', hge'⟩ := hpt i s
              (by rw [getElem?_set_other stops ind i _ hi]; exact hs)
            exact ⟨s', hs', hpos, hle', hge'⟩
        · rw [if_neg hb] at h
          exact ih _ _ _ _ _ _ h

/-- The demand accumulators track the normalization loop exactly: every
decrement of a stop is paired with a decrement of its location's
accumulator, so an accumulator always equals a fixed frame (the
contribution of stops outside this route) plus the per-location sum over
the route's stops. -/
theorem normLoop_frame (cap : Int) (nloc : Nat) (F : Nat → Int) :
    ∀ (fuel : Nat) (stops : List Stop) (demands : List Int) (ind : Nat) (total : Int)
      (stops' : List Stop) (demands' : List Int),
      normLoop cap fuel stops demands ind total = some (stops', demands') →
      (∀ s ∈ stops, s.locPos < nloc) →
      demands.length = nloc →
      (∀ p : Nat, demands.getD p 0 = F p + locSum p stops) →
      demands'.length = nloc ∧
      (∀ s ∈ stops', s.locPos < nloc) ∧
      (∀ p : Nat, demands'.getD p 0 = F p + locSum p stops') := by
  intro fuel
  induction fuel with
  | zero =>
    intro stops demands ind total stops' demands' h hb hlen hacc
    rw [normLoop] at h
    by_cases hle : total ≤ cap
    · rw [if_pos hle] at h
      cases h
      exact ⟨hlen, hb, hacc⟩
    · rw [if_neg hle] at h
      cases h
  | succ fuel ih =>
    intro stops demands ind total stops' demands' h hb hlen hacc
    rw [normLoop] at h
    by_cases hle : total ≤ cap
    · rw [if_pos hle] at h
      cases h
      exact ⟨hlen, hb, hacc⟩
    · rw [if_neg hle] at h
      cases hg : stops[ind]? with
      | none => rw [hg] at h; cases h
      | some s =>
        rw [hg] at h
        simp only at h
        by_cases hbig : 1 < s.delivered
        · rw [if_pos hbig] at h
          have hmem : s ∈ stops := List.getElem?_mem hg
          have hsp : s.locPos < nloc := hb s hmem
          have hsp' : s.locPos < demands.length := by omega
          apply ih _ _ _ _ _ _ h
          · intro s'' hmem''
            rcases List.mem_or_eq_of_mem_set hmem'' with h'' | h''
            · exact hb s'' h''
            · rw [h'']
              exact hsp
          · rw [demandSub, List.length_set]
            exact hlen
          · intro p
            have hloc := map_sum_set (fun x => if x.locPos = p then x.delivered else 0)
              stops ind s { s with delivered := s.delivered - 1 } hg
            simp only at hloc
            by_cases hp : s.locPos = p
            · subst hp
              rw [demandSub, getD_set_self demands s.locPos _ hsp']
              have hl : locSum s.locPos
                  (stops.set ind { s with delivered := s.delivered - 1 }) =
                  locSum s.locPos stops - 1 := by
                simp only [locSum]
                rw [hloc]
                simp only [if_true, eq_self_iff_true]
                omega
              rw [hl, hacc s.locPos]
              omega
            · rw [demandSub, getD_set_other demands s.locPos p _ hp]
              have hl : locSum p
                  (stops.set ind { s with delivered := s.delivered - 1 }) =
                  locSum p stops := by
                simp only [locSum]
                rw [hloc]
                rw [if_neg hp, if_neg hp]
                omega
              rw [hl, hacc p]
        · rw [if_neg hbig] at h
          exact ih _ _ _ _ _ _ h hb hlen hacc

/-- Committing under a fresh key on an empty dict. -/
theorem dictAppend_nil (k : Nat) (rnew : Route) :
    dictAppend [] k rnew = [(k, [rnew])] := by
  rfl

/-- Committing under a key bound by the head entry rewrites the head in
place (a Python-falsy empty list is replaced by the singleton). -/
theorem dictAppend_cons_eq (a : Nat × List Route) (rest : RoutesDict) (k : Nat)
    (rnew : Route) (hk : a.1 = k) :
    dictAppend (a :: rest) k rnew =
      (k, if a.2.isEmpty then [rnew] else a.2 ++ [rnew]) :: rest := by
  rw [dictAppend, dictGet, if_pos hk]
  simp only
  by_cases h : a.2.isEmpty
  · rw [if_pos h, if_pos h, dictSet, if_pos hk]
  · rw [if_neg h, if_neg h, dictSet, if_pos hk]

/-- Committing under a key different from the head's key skips the head. -/
theorem dictAppend_cons_ne (a : Nat × List Route) (rest : RoutesDict) (k : Nat)
    (rnew : Route) (hk : ¬a.1 = k) :
    dictAppend (a :: rest) k rnew = a :: dictAppend rest k rnew := by
  rw [dictAppend, dictAppend, dictGet, if_neg hk]
  cases dictGet rest k with
  | none =>
    simp only
    rw [dictSet, if_neg hk]
  | some rs =>
    simp only
    by_cases h : rs.isEmpty
    · rw [if_pos h, if_pos h, dictSet, if_neg hk]
    · rw [if_neg h, if_neg h, dictSet, if_neg hk]

/-- A route found in the dict after committing `rnew` was already in the
dict, or is `rnew` itself. -/
theorem mem_dictAppend :
    ∀ (d : RoutesDict) (k : Nat) (rnew : Route) (kv : Nat × List Route) (r : Route),
      kv ∈ dictAppend d k rnew → r ∈ kv.2 →
      (∃ kv' ∈ d, r ∈ kv'.2) ∨ r = rnew := by
  intro d
  induction d with
  | nil =>
    intro k rnew kv r hkv hr
    rw [dictAppend_nil] at hkv
    simp only [List.mem_singleton] at hkv
    rw [hkv] at hr
    simp at hr
    exact Or.inr hr
  | cons a rest ih =>
    intro k rnew kv r hkv hr
    by_cases hk : a.1 = k
    · rw [dictAppend_cons_eq a rest k rnew hk] at hkv
      rcases List.mem_cons.mp hkv with h | h
      · rw [h] at hr
        by_cases hemp : a.2.isEmpty
        · rw [if_pos hemp] at hr
          simp at hr
          exact Or.inr hr
        · rw [if_neg hemp] at hr
          rcases List.mem_append.mp hr with h' | h'
          · exact Or.inl ⟨a, List.mem_cons_self a rest, h'⟩
          · simp at h'
            exact Or.inr h'
      · exact Or.inl ⟨kv, List.mem_cons_of_mem a h, hr⟩
    · rw [dictAppend_cons_ne a rest k rnew hk] at hkv
      rcases List.mem_cons.mp hkv with h | h
      · rw [h] at hr
        exact Or.inl ⟨a, List.mem_cons_self a rest, hr⟩
      · rcases ih k rnew kv r h hr with ⟨kv', hkv', hr'⟩ | h'
        · exact Or.inl ⟨kv', List.mem_cons_of_mem a hkv', hr'⟩
        · exact Or.inr h'

/-- A stop of the dict after committing a route was a stop of the old dict
or a stop of the committed route. -/
theorem mem_dictStops_dictAppend (d : RoutesDict) (k : Nat) (rnew : Route)
    (s : Stop) (h : s ∈ dictStops (dictAppend d k rnew)) :
    s ∈ dictStops d ∨ s ∈ rnew.stops := by
  rw [dictStops] at h
  rcases List.mem_flatMap.mp h with ⟨kv, hkv, hs⟩
  rcases List.mem_flatMap.mp hs with ⟨r, hrkv, hsr⟩
  rcases mem_dictAppend d k rnew kv r hkv hrkv with ⟨kv', hkv', hr'⟩ | hr'
  · left
    rw [dictStops]
    exact List.mem_flatMap.mpr ⟨kv', hkv', List.mem_flatMap.mpr ⟨r, hr', hsr⟩⟩
  · right
    rw [← hr']
    exact hsr

/-- `dictStops` over a cons cell. -/
theorem dictStops_cons (a : Nat × List Route) (rest : RoutesDict) :
    dictStops (a :: rest) = a.2.flatMap (fun r => r.stops) ++ dictStops rest := by
  rw [dictStops, dictStops, List.flatMap_cons]

/-- Per-location stop sums over the whole dict grow by exactly the committed
route's contribution. -/
theorem locSum_dictStops_dictAppend (p : Nat) :
    ∀ (d : RoutesDict) (k : Nat) (rnew : Route),
      locSum p (dictStops (dictAppend d k rnew)) =
        locSum p (dictStops d) + locSum p rnew.stops := by
  intro d
  induction d with
  | nil =>
    intro k rnew
    rw [dictAppend_nil, dictStops_cons]
    simp only [List.flatMap_cons, List.flatMap_nil, List.append_nil]
    rw [locSum_append]
    simp [dictStops, locSum]
  | cons a rest ih =>
    intro k rnew
    by_cases hk : a.1 = k
    · rw [dictAppend_cons_eq a rest k rnew hk, dictStops_cons, dictStops_cons]
      rw [locSum_append, locSum_append]
      by_cases hemp : a.2.isEmpty
      · rw [if_pos hemp]
        have ha : a.2 = [] := List.isEmpty_iff.mp hemp
        rw [ha]
        simp only [List.flatMap_cons, List.flatMap_nil, List.append_nil]
        have h0 : locSum p ([] : List Stop) = 0 := rfl
        rw [h0]
        omega
      · rw [if_neg hemp]
        simp only [List.flatMap_append, List.flatMap_cons, List.flatMap_nil,
          List.append_nil]
        rw [locSum_append]
        omega
    · rw [dictAppend_cons_ne a rest k rnew hk, dictStops_cons, dictStops_cons]
      rw [locSum_append, locSum_append, ih k rnew]
      omega

/-- A line with non-negative parsed components has non-negative demand. -/
theorem lineDemand_nonneg (line : ArchiveLine) (h : nonnegComponents line) :
    0 ≤ lineDemand line := by
  rcases h with ⟨h1, h2, h3⟩
  rw [lineDemand]
  omega

/-- Processing one line preserves non-negativity of the stop quantities
(merging adds a non-negative demand; a new stop carries the demand itself). -/
theorem processLine_nonneg (locations : List PhysicalLocation) (line : ArchiveLine)
    (stops : List Stop) (demands : List Int)
    (hd : 0 ≤ lineDemand line) (hinv : ∀ s ∈ stops, 0 ≤ s.delivered) :
    ∀ s ∈ (processLine locations line stops demands).1, 0 ≤ s.delivered := by
  rw [processLine]
  cases hloc : find_location line.storeCode locations with
  | none => exact hinv
  | some p =>
    simp only
    cases stops with
    | nil =>
      intro s hs
      simp at hs
      rw [hs]
      exact hd
    | cons s0 rest =>
      simp only
      by_cases hmerge : locNameEq locations s0.locPos p
      · rw [if_pos hmerge]
        intro s hs
        rcases List.mem_cons.mp hs with h | h
        · rw [h]
          have h0 : 0 ≤ s0.delivered := hinv s0 (List.mem_cons_self s0 rest)
          simp only
          omega
        · exact hinv s (List.mem_cons_of_mem s0 h)
      · rw [if_neg hmerge]
        intro s hs
        rcases List.mem_cons.mp hs with h | h
        · rw [h]
          exact hd
        · exact hinv s h

/-- Processing one line preserves the location-bound on stop positions. -/
theorem processLine_bounds (locations : List PhysicalLocation) (line : ArchiveLine)
    (stops : List Stop) (demands : List Int)
    (hinv : ∀ s ∈ stops, s.locPos < locations.length) :
    ∀ s ∈ (processLine locations line stops demands).1, s.locPos < locations.length := by
  rw [processLine]
  cases hloc : find_location line.storeCode locations with
  | none => exact hinv
  | some p =>
    have hp : p < locations.length := find_location_lt locations line.storeCode p hloc
    simp only
    cases stops with
    | nil =>
      intro s hs
      simp at hs
      rw [hs]
      exact hp
    | cons s0 rest =>
      simp only
      by_cases hmerge : locNameEq locations s0.locPos p
      · rw [if_pos hmerge]
        intro s hs
        rcases List.mem_cons.mp hs with h | h
        · rw [h]
          exact hinv s0 (List.mem_cons_self s0 rest)
        · exact hinv s (List.mem_cons_of_mem s0 h)
      · rw [if_neg hmerge]
        intro s hs
        rcases List.mem_cons.mp hs with h | h
        · rw [h]
          exact hp
        · exact hinv s h

/-- Processing one line keeps the accumulator list's length. -/
theorem processLine_length (locations : List PhysicalLocation) (line : ArchiveLine)
    (stops : List Stop) (demands : List Int) :
    (processLine locations line stops demands).2.length = demands.length := by
  rw [processLine]
  cases hloc : find_location line.storeCode locations with
  | none => rfl
  | some p =>
    simp only
    cases stops with
    | nil => simp [demandAdd]
    | cons s0 rest =>
      simp only
      by_cases hmerge : locNameEq locations s0.locPos p
      · rw [if_pos hmerge]
        simp [demandAdd]
      · rw [if_neg hmerge]
        simp [demandAdd]

/-- `processLine` on an unresolved location: the line is dropped. -/
theorem processLine_none (locations : List PhysicalLocation) (line : ArchiveLine)
    (stops : List Stop) (demands : List Int)
    (h : find_location line.storeCode locations = none) :
    processLine locations line stops demands = (stops, demands) := by
  rw [processLine, h]

/-- `processLine` on a resolved location with no open stops: one fresh stop
carrying the line's demand, accumulator bumped. -/
theorem processLine_some_nil (locations : List PhysicalLocation) (line : ArchiveLine)
    (demands : List Int) (p : Nat)
    (h : find_location line.storeCode locations = some p) :
    processLine locations line [] demands =
      ([{ locPos := p, delivered := lineDemand line }],
        demandAdd demands p (lineDemand line)) := by
  rw [processLine, h]

/-- `processLine` when the front-of-list stop is at the same (name-equal)
location: the demand merges into that stop, accumulator bumped. -/
theorem processLine_some_merge (locations : List PhysicalLocation) (line : ArchiveLine)
    (s0 : Stop) (rest : List Stop) (demands : List Int) (p : Nat)
    (h : find_location line.storeCode locations = some p)
    (hm : locNameEq locations s0.locPos p = true) :
    processLine locations line (s0 :: rest) demands =
      ({ s0 with delivered := s0.delivered + lineDemand line } :: rest,
        demandAdd demands p (lineDemand line)) := by
  rw [processLine, h]
  simp only
  rw [if_pos hm]

/-- `processLine` when the front-of-list stop is at a different location:
a fresh stop is inserted at the front, accumulator bumped. -/
theorem processLine_some_insert (locations : List PhysicalLocation) (line : ArchiveLine)
    (s0 : Stop) (rest : List Stop) (demands : List Int) (p : Nat)
    (h : find_location line.storeCode locations = some p)
    (hm : ¬locNameEq locations s0.locPos p = true) :
    processLine locations line (s0 :: rest) demands =
      ({ locPos := p, delivered := lineDemand line } :: s0 :: rest,
        demandAdd demands p (lineDemand line)) := by
  rw [processLine, h]
  simp only
  rw [if_neg hm]

/-- With distinct location names, processing one line moves each accumulator
in lockstep with the per-location stop sums: the line's demand lands both on
its location's accumulator and on that location's stop (merged or fresh). -/
theorem processLine_acc (locations : List PhysicalLocation) (line : ArchiveLine)
    (stops : List Stop) (demands : List Int) (F : Nat → Int)
    (hdn : distinctNames locations)
    (hb : ∀ s ∈ stops, s.locPos < locations.length)
    (hlen : demands.length = locations.length)
    (hacc : ∀ p : Nat, demands.getD p 0 = F p + locSum p stops) :
    ∀ p : Nat, (processLine locations line stops demands).2.getD p 0 =
      F p + locSum p (processLine locations line stops demands).1 := by
  intro p
  cases hloc : find_location line.storeCode locations with
  | none =>
    rw [processLine_none locations line stops demands hloc]
    exact hacc p
  | some q =>
    have hq : q < locations.length := find_location_lt locations line.storeCode q hloc
    have hq' : q < demands.length := by omega
    cases stops with
    | nil =>
      rw [processLine_some_nil locations line demands q hloc]
      by_cases hp : q = p
      · subst hp
        simp only
        rw [demandAdd, getD_set_self demands q _ hq', hacc q]
        have h1 : locSum q [({ locPos := q, delivered := lineDemand line } : Stop)] =
            lineDemand line := by
          simp [locSum]
        have h0 : locSum q ([] : List Stop) = 0 := rfl
        rw [h1, h0]
        omega
      · simp only
        rw [demandAdd, getD_set_other demands q p _ hp, hacc p]
        have h1 : locSum p [({ locPos := q, delivered := lineDemand line } : Stop)] = 0 := by
          simp [locSum, hp]
        have h0 : locSum p ([] : List Stop) = 0 := rfl
        rw [h1, h0]
    | cons s0 rest =>
      have hs0 : s0.locPos < locations.length := hb s0 (List.mem_cons_self s0 rest)
      by_cases hmerge : locNameEq locations s0.locPos q
      · have hq0 : s0.locPos = q :=
          locNameEq_eq_of_distinct locations hdn s0.locPos q hs0 hq hmerge
        rw [processLine_some_merge locations line s0 rest demands q hloc hmerge]
        by_cases hp : q = p
        · subst hp
          simp only
          rw [demandAdd, getD_set_self demands q _ hq', hacc q]
          rw [locSum_cons, locSum_cons]
          simp only [hq0, if_true, eq_self_iff_true]
          omega
        · simp only
          rw [demandAdd, getD_set_other demands q p _ hp, hacc p]
          have hq0p : ¬s0.locPos = p := by omega
          rw [locSum_cons, locSum_cons]
          simp only [hq0p, if_false]
      · rw [processLine_some_insert locations line s0 rest demands q hloc hmerge]
        by_cases hp : q = p
        · subst hp
          rw [demandAdd, getD_set_self demands q _ hq', hacc q]
          simp only [locSum_cons, if_true, eq_self_iff_true]
          omega
        · rw [demandAdd, getD_set_other demands q p _ hp, hacc p]
          simp only [locSum_cons, hp, if_false]
          omega

/-- `find_vehicle` always reaches the capacity fallback: the code-based
lookups never match (Python `Vehicle.__eq__` against a string is `False`). -/
theorem find_vehicle_eq (horse trailer : String) (carried : Int)
    (vehicles : List Vehicle) (types : List VehicleType) :
    find_vehicle horse trailer carried vehicles types =
      some { name := horse, typePos := closestTypePos types carried } := by
  rw [find_vehicle, pyVehiclesIndex_eq_none, pyVehiclesIndex_eq_none]

/-- Complete case analysis of one successful `read_archive` loop iteration:
either the line extends the open route (no boundary), or a boundary is
crossed - the open route (if any) is normalized and committed, and a fresh
route is started - and then the line is processed into the (new) open route. -/
theorem archiveStep_ok_cases (locations : List PhysicalLocation)
    (vehicles : List Vehicle) (types : List VehicleType) (fuel : Nat)
    (st : ReconState) (line : ArchiveLine) (st' : ReconState)
    (h : archiveStep locations vehicles types fuel st line = .ok st') :
    (∃ r : Route, st.current = some r ∧ (line.routeCode != r.code) = false ∧
       st'.routes = st.routes ∧
       st'.current = some { r with stops := (processLine locations line r.stops st.demands).1 } ∧
       st'.demands = (processLine locations line r.stops st.demands).2) ∨
    (∃ (v : Vehicle) (tp : Nat) (routes1 : RoutesDict) (demands1 : List Int),
       find_vehicle line.horse line.trailer line.carried vehicles types = some v ∧
       v.typePos = some tp ∧
       ((st.current = none ∧ routes1 = st.routes ∧ demands1 = st.demands) ∨
        (∃ (r : Route) (tq : Nat) (t : VehicleType) (ns : List Stop),
          st.current = some r ∧ (line.routeCode != r.code) = true ∧
          r.vehicle.typePos = some tq ∧ types[tq]? = some t ∧
          normLoop t.capacity fuel r.stops st.demands 0 (sumDelivered r.stops) =
            some (ns, demands1) ∧
          routes1 = dictAppend st.routes t.dataIndex { r with stops := ns })) ∧
       st'.routes = routes1 ∧
       st'.current =
         some { code := line.routeCode, vehicle := v,
                stops := (processLine locations line [] demands1).1 } ∧
       st'.demands = (processLine locations line [] demands1).2) := by
  cases hcur : st.current with
  | none =>
    right
    rw [archiveStep, hcur] at h
    simp only at h
    rw [find_vehicle_eq] at h
    simp only at h
    cases htp : closestTypePos types line.carried with
    | none => rw [htp] at h; simp at h
    | some tp =>
      rw [htp] at h
      simp only at h
      injection h with h
      subst h
      exact ⟨{ name := line.horse, typePos := some tp }, tp, st.routes, st.demands,
        by rw [find_vehicle_eq, htp], rfl, Or.inl ⟨rfl, rfl, rfl⟩, rfl, rfl, rfl⟩
  | some r =>
    rw [archiveStep, hcur] at h
    simp only at h
    by_cases hbc : (line.routeCode != r.code) = true
    · right
      rw [if_pos hbc, finalizeRoute] at h
      cases htq : r.vehicle.typePos with
      | none => rw [htq] at h; simp at h
      | some tq =>
        rw [htq] at h
        simp only at h
        cases hty : types[tq]? with
        | none => rw [hty] at h; simp at h
        | some t =>
          rw [hty] at h
          simp only at h
          cases hnl : normLoop t.capacity fuel r.stops st.demands 0
              (sumDelivered r.stops) with
          | none => rw [hnl] at h; simp at h
          | some nsd =>
            obtain ⟨ns, demands1⟩ := nsd
            rw [hnl] at h
            simp only at h
            rw [find_vehicle_eq] at h
            simp only at h
            cases htp : closestTypePos types line.carried with
            | none => rw [htp] at h; simp at h
            | some tp =>
              rw [htp] at h
              simp only at h
              injection h with h
              subst h
              exact ⟨{ name := line.horse, typePos := some tp }, tp,
                dictAppend st.routes t.dataIndex { r with stops := ns }, demands1,
                by rw [find_vehicle_eq, htp], rfl,
                Or.inr ⟨r, tq, t, ns, rfl, hbc, htq, hty, hnl, rfl⟩, rfl, rfl, rfl⟩
    · left
      rw [if_neg hbc] at h
      simp only at h
      rw [hcur] at h
      simp only at h
      injection h with h
      subst h
      exact ⟨r, rfl, by simpa using hbc, rfl, rfl, rfl⟩

/-- Normalization keeps every stop quantity non-negative (it only decrements
quantities strictly above 1). -/
theorem normLoop_stops_nonneg (cap : Int) (fuel : Nat) (stops : List Stop)
    (demands : List Int) (ind : Nat) (total : Int) (ns : List Stop) (nd : List Int)
    (h : normLoop cap fuel stops demands ind total = some (ns, nd))
    (hinv : ∀ s ∈ stops, 0 ≤ s.delivered) : ∀ s ∈ ns, 0 ≤ s.delivered := by
  obtain ⟨hlen, hpt⟩ := normLoop_pointwise cap fuel stops demands ind total ns nd h
  intro s' hs'
  obtain ⟨i, hi⟩ := List.mem_iff_getElem?.mp hs'
  have hilt : i < ns.length := (List.getElem?_eq_some_iff.mp hi).1
  have hilt2 : i < stops.length := by omega
  obtain ⟨s'', hs'', _, _, hmin⟩ := hpt i stops[i] (List.getElem?_eq_getElem hilt2)
  rw [hi] at hs''
  injection hs'' with he
  have h0 : 0 ≤ stops[i].delivered := hinv _ (List.getElem_mem hilt2)
  rw [he]
  omega

/-- One loop iteration preserves the capacity bound on all committed routes:
only `finalizeRoute` touches the dict, and it commits a normalized route. -/
theorem archiveStep_routes_ok (locations : List PhysicalLocation)
    (vehicles : List Vehicle) (types : List VehicleType) (fuel : Nat)
    (st : ReconState) (line : ArchiveLine) (st' : ReconState)
    (h : archiveStep locations vehicles types fuel st line = .ok st')
    (hinv : ∀ kv ∈ st.routes, ∀ r ∈ kv.2, ∃ (tp : Nat) (t : VehicleType),
      r.vehicle.typePos = some tp ∧ types[tp]? = some t ∧
      sumDelivered r.stops ≤ t.capacity) :
    ∀ kv ∈ st'.routes, ∀ r ∈ kv.2, ∃ (tp : Nat) (t : VehicleType),
      r.vehicle.typePos = some tp ∧ types[tp]? = some t ∧
      sumDelivered r.stops ≤ t.capacity := by
  rcases archiveStep_ok_cases locations vehicles types fuel st line st' h with
    ⟨r, _, _, hroutes, _, _⟩ | ⟨v, tp, routes1, demands1, _, _, hfin, hroutes, _, _⟩
  · rw [hroutes]
    exact hinv
  · rw [hroutes]
    rcases hfin with ⟨_, hr1, _⟩ | ⟨r, tq, t, ns, _, _, htq, hty, hnl, hr1⟩
    · rw [hr1]
      exact hinv
    · rw [hr1]
      intro kv hkv rr hrr
      rcases mem_dictAppend st.routes t.dataIndex { r with stops := ns } kv rr hkv hrr with
        ⟨kv', hkv', hrr'⟩ | hrr'
      · exact hinv kv' hkv' rr hrr'
      · subst hrr'
        exact ⟨tq, t, htq, hty,
          normLoop_sum_le t.capacity fuel r.stops st.demands 0 (sumDelivered r.stops)
            ns demands1 hnl rfl⟩

/-- The loop pass preserves the capacity bound from any start state to the
returned dict. -/
theorem readLoop_routes_ok (locations : List PhysicalLocation)
    (vehicles : List Vehicle) (types : List VehicleType) (fuel : Nat) :
    ∀ (lines : List ArchiveLine) (st : ReconState) (routes : RoutesDict)
      (demands : List Int),
      readLoop locations vehicles types fuel st lines = .ok (routes, demands) →
      (∀ kv ∈ st.routes, ∀ r ∈ kv.2, ∃ (tp : Nat) (t : VehicleType),
        r.vehicle.typePos = some tp ∧ types[tp]? = some t ∧
        sumDelivered r.stops ≤ t.capacity) →
      ∀ kv ∈ routes, ∀ r ∈ kv.2, ∃ (tp : Nat) (t : VehicleType),
        r.vehicle.typePos = some tp ∧ types[tp]? = some t ∧
        sumDelivered r.stops ≤ t.capacity := by
  intro lines
  induction lines with
  | nil =>
    intro st routes demands h hinv
    rw [readLoop] at h
    injection h with h
    injection h with h1 h2
    rw [← h1]
    exact hinv
  | cons line rest ih =>
    intro st routes demands h hinv
    rw [readLoop] at h
    cases hstep : archiveStep locations vehicles types fuel st line with
    | error e => rw [hstep] at h; cases h
    | ok st1 =>
      rw [hstep] at h
      simp only at h
      exact ih st1 routes demands h
        (archiveStep_routes_ok locations vehicles types fuel st line st1 hstep hinv)

/-- C1: whenever `read_archive` returns, every route committed into the
output dict satisfies the capacity bound - the sum of its stops' delivered
quantities is at most its vehicle's type capacity. -/
theorem read_archive_capacity_bound :
    ∀ (locations : List PhysicalLocation) (vehicles : List Vehicle)
      (types : List VehicleType) (fuel : Nat) (lines : List ArchiveLine)
      (routes : RoutesDict) (demands : List Int),
      read_archive locations vehicles types fuel lines = .ok (routes, demands) →
      ∀ kv ∈ routes, ∀ r ∈ kv.2, ∃ (tp : Nat) (t : VehicleType),
        r.vehicle.typePos = some tp ∧ types[tp]? = some t ∧
        sumDelivered r.stops ≤ t.capacity := by
  intro locations vehicles types fuel lines routes demands h
  exact readLoop_routes_ok locations vehicles types fuel lines
    (initState locations types) routes demands h
    (fun kv hkv => absurd hkv (by simp [initState]))

/-- C1 witness: a concrete two-route archive returns, and its committed
route (5 pallets on a 30-pallet vehicle) satisfies the bound. -/
theorem read_archive_capacity_bound_witness :
    read_archive [locA] [] [typeCap30] 10 [lineZ1, lineZ2] =
      .ok ([(0, [routeZ])], [8]) ∧
    ∃ (tp : Nat) (t : VehicleType), routeZ.vehicle.typePos = some tp ∧
      [typeCap30][tp]? = some t ∧ sumDelivered routeZ.stops ≤ t.capacity :=
  ⟨by decide,
   read_archive_capacity_bound [locA] [] [typeCap30] 10 [lineZ1, lineZ2]
     [(0, [routeZ])] [8] (by decide) (0, [routeZ]) (by simp) routeZ (by simp)⟩

/-- One loop iteration preserves non-negativity of all live stop quantities,
provided the line's demand is non-negative. -/
theorem archiveStep_stops_nonneg (locations : List PhysicalLocation)
    (vehicles : List Vehicle) (types : List VehicleType) (fuel : Nat)
    (st : ReconState) (line : ArchiveLine) (st' : ReconState)
    (h : archiveStep locations vehicles types fuel st line = .ok st')
    (hd : 0 ≤ lineDemand line)
    (hinv : ∀ s ∈ stateStops st, 0 ≤ s.delivered) :
    ∀ s ∈ stateStops st', 0 ≤ s.delivered := by
  have hdict : ∀ s ∈ dictStops st.routes, 0 ≤ s.delivered := by
    intro s hs
    exact hinv s (by rw [stateStops]; exact List.mem_append_left _ hs)
  rcases archiveStep_ok_cases locations vehicles types fuel st line st' h with
    ⟨r, hcur, _, hroutes, hcur', hdem⟩ |
    ⟨v, tp, routes1, demands1, _, _, hfin, hroutes, hcur', hdem⟩
  · have hr : ∀ s ∈ r.stops, 0 ≤ s.delivered := by
      intro s hs
      apply hinv s
      rw [stateStops, hcur]
      exact List.mem_append_right _ hs
    intro s hs
    rw [stateStops, hroutes, hcur'] at hs
    simp only [currentStops] at hs
    rcases List.mem_append.mp hs with h' | h'
    · exact hdict s h'
    · exact processLine_nonneg locations line r.stops st.demands hd hr s h'
  · have hd1 : ∀ s ∈ dictStops routes1, 0 ≤ s.delivered := by
      rcases hfin with ⟨_, hr1, _⟩ | ⟨r, tq, t, ns, hcurr, _, _, _, hnl, hr1⟩
      · rw [hr1]
        exact hdict
      · have hr : ∀ s ∈ r.stops, 0 ≤ s.delivered := by
          intro s hs
          apply hinv s
          rw [stateStops, hcurr]
          exact List.mem_append_right _ hs
        have hns : ∀ s ∈ ns, 0 ≤ s.delivered :=
          normLoop_stops_nonneg t.capacity fuel r.stops st.demands 0
            (sumDelivered r.stops) ns demands1 hnl hr
        rw [hr1]
        intro s hs
        rcases mem_dictStops_dictAppend st.routes t.dataIndex
          { r with stops := ns } s hs with h' | h'
        · exact hdict s h'
        · exact hns s h'
    intro s hs
    rw [stateStops, hroutes, hcur'] at hs
    simp only [currentStops] at hs
    rcases List.mem_append.mp hs with h' | h'
    · exact hd1 s h'
    · exact processLine_nonneg locations line [] demands1 hd (by simp) s h'

/-- The loop pass keeps every committed stop quantity non-negative when all
line demands parse non-negative. -/
theorem readLoop_stops_nonneg (locations : List PhysicalLocation)
    (vehicles : List Vehicle) (types : List VehicleType) (fuel : Nat) :
    ∀ (lines : List ArchiveLine) (st : ReconState) (routes : RoutesDict)
      (demands : List Int),
      readLoop locations vehicles types fuel st lines = .ok (routes, demands) →
      (∀ l ∈ lines, nonnegComponents l) →
      (∀ s ∈ stateStops st, 0 ≤ s.delivered) →
      ∀ s ∈ dictStops routes, 0 ≤ s.delivered := by
  intro lines
  induction lines with
  | nil =>
    intro st routes demands h _ hinv
    rw [readLoop] at h
    injection h with h
    injection h with h1 h2
    intro s hs
    rw [← h1] at hs
    exact hinv s (by rw [stateStops]; exact List.mem_append_left _ hs)
  | cons line rest ih =>
    intro st routes demands h hl hinv
    rw [readLoop] at h
    cases hstep : archiveStep locations vehicles types fuel st line with
    | error e => rw [hstep] at h; cases h
    | ok st1 =>
      rw [hstep] at h
      simp only at h
      exact ih st1 routes demands h (fun l hl' => hl l (List.mem_cons_of_mem line hl'))
        (archiveStep_stops_nonneg locations vehicles types fuel st line st1 hstep
          (lineDemand_nonneg line (hl line (List.mem_cons_self line rest))) hinv)

/-- C4 (amended): if every successfully parsed demand component of the
archive is non-negative, every stop of every committed route has a
non-negative quantity after overflow normalization; and - pointwise and
unconditionally - normalization never increases a quantity and never drops
one below the smaller of its original value and 1, so a stop at 1 is never
reduced below 1 and a non-negative quantity never becomes negative. -/
theorem read_archive_stops_nonneg :
    (∀ (locations : List PhysicalLocation) (vehicles : List Vehicle)
       (types : List VehicleType) (fuel : Nat) (lines : List ArchiveLine)
       (routes : RoutesDict) (demands : List Int),
       read_archive locations vehicles types fuel lines = .ok (routes, demands) →
       (∀ l ∈ lines, nonnegComponents l) →
       ∀ kv ∈ routes, ∀ r ∈ kv.2, ∀ s ∈ r.stops, 0 ≤ s.delivered) ∧
    (∀ (cap : Int) (fuel : Nat) (stops : List Stop) (demands : List Int)
       (ind : Nat) (total : Int) (ns : List Stop) (nd : List Int),
       normLoop cap fuel stops demands ind total = some (ns, nd) →
       ∀ (i : Nat) (s : Stop), stops[i]? = some s →
         ∃ s' : Stop, ns[i]? = some s' ∧ s'.delivered ≤ s.delivered ∧
           min s.delivered 1 ≤ s'.delivered) := by
  constructor
  · intro locations vehicles types fuel lines routes demands h hl kv hkv r hr s hs
    have hstops : s ∈ dictStops routes := by
      rw [dictStops]
      exact List.mem_flatMap.mpr ⟨kv, hkv, List.mem_flatMap.mpr ⟨r, hr, hs⟩⟩
    exact readLoop_stops_nonneg locations vehicles types fuel lines
      (initState locations types) routes demands h hl
      (fun s hs => absurd hs (by simp [stateStops, initState, dictStops, currentStops]))
      s hstops
  · intro cap fuel stops demands ind total ns nd h i s hs
    obtain ⟨_, hpt⟩ := normLoop_pointwise cap fuel stops demands ind total ns nd h
    obtain ⟨s', hs', _, hle, hmin⟩ := hpt i s hs
    exact ⟨s', hs', hle, hmin⟩

/-- C4 witness: the concrete two-route archive with non-negative demands
returns with the committed stop quantity 5 non-negative; and the pointwise
bound instantiated on the overflow example's first stop (11 normalizes to
10, between `min 11 1` and 11). -/
theorem read_archive_stops_nonneg_witness :
    (read_archive [locA] [] [typeCap30] 10 [lineZ1, lineZ2] =
        .ok ([(0, [routeZ])], [8]) ∧
      (∀ l ∈ [lineZ1, lineZ2], nonnegComponents l) ∧
      ∀ kv ∈ [(0, [routeZ])], ∀ r ∈ kv.2, ∀ s ∈ r.stops, 0 ≤ s.delivered) ∧
    (normLoop 30 3 stops111 [11, 11, 11] 0 33 =
        some ([{ locPos := 0, delivered := 10 }, { locPos := 1, delivered := 10 },
               { locPos := 2, delivered := 10 }], [10, 10, 10]) ∧
      ∃ s' : Stop,
        ([{ locPos := 0, delivered := 10 }, { locPos := 1, delivered := 10 },
          { locPos := 2, delivered := 10 }] : List Stop)[0]? = some s' ∧
        s'.delivered ≤ (11 : Int) ∧ min (11 : Int) 1 ≤ s'.delivered) :=
  ⟨⟨by decide, by decide,
    read_archive_stops_nonneg.1 [locA] [] [typeCap30] 10 [lineZ1, lineZ2]
      [(0, [routeZ])] [8] (by decide) (by decide)⟩,
   ⟨by decide,
    read_archive_stops_nonneg.2 30 3 stops111 [11, 11, 11] 0 33
      ([{ locPos := 0, delivered := 10 }, { locPos := 1, delivered := 10 },
        { locPos := 2, delivered := 10 }]) [10, 10, 10] (by decide) 0
      { locPos := 0, delivered := 11 } (by decide)⟩⟩

/-- C4 counterexample: an archive line whose dry-demand cell parses to the
negative integer -5 flows through unchecked (the guards in the source are
commented out); the committed route's stop quantity is -5 after
finalization, so stop quantities are not unconditionally non-negative. -/
theorem read_archive_negative_stop :
    read_archive [locA] [] [typeCap100] 10 [lineZneg, lineZ2] =
      .ok ([(0, [routeZneg])], [-2]) ∧
    routeZneg.stops = [{ locPos := 0, delivered := -5 }] ∧ (-5 : Int) < 0 := by
  refine ⟨by decide, by decide, by decide⟩

/-- One loop iteration preserves the full accumulator invariant when
location names are pairwise distinct and the line's demand is non-negative:
accumulator-list length, stop-position bounds, stop non-negativity, and
each accumulator equalling the per-location sum over all live stops. -/
theorem archiveStep_acc (locations : List PhysicalLocation)
    (vehicles : List Vehicle) (types : List VehicleType) (fuel : Nat)
    (st : ReconState) (line : ArchiveLine) (st' : ReconState)
    (h : archiveStep locations vehicles types fuel st line = .ok st')
    (hdn : distinctNames locations)
    (hlen : st.demands.length = locations.length)
    (hb : ∀ s ∈ stateStops st, s.locPos < locations.length)
    (hacc : ∀ p : Nat, st.demands.getD p 0 = locSum p (stateStops st)) :
    st'.demands.length = locations.length ∧
    (∀ s ∈ stateStops st', s.locPos < locations.length) ∧
    (∀ p : Nat, st'.demands.getD p 0 = locSum p (stateStops st')) := by
  have hbdict : ∀ s ∈ dictStops st.routes, s.locPos < locations.length := by
    intro s hs
    exact hb s (by rw [stateStops]; exact List.mem_append_left _ hs)
  rcases archiveStep_ok_cases locations vehicles types fuel st line st' h with
    ⟨r, hcur, _, hroutes, hcur', hdem⟩ |
    ⟨v, tp, routes1, demands1, _, _, hfin, hroutes, hcur', hdem⟩
  · -- no boundary: the open route absorbs the line
    have hbr : ∀ s ∈ r.stops, s.locPos < locations.length := by
      intro s hs
      exact hb s (by rw [stateStops, hcur]; exact List.mem_append_right _ hs)
    have haccr : ∀ p : Nat, st.demands.getD p 0 =
        locSum p (dictStops st.routes) + locSum p r.stops := by
      intro p
      rw [hacc p, stateStops, hcur]
      simp only [currentStops]
      exact locSum_append p _ _
    have hpl := processLine_acc locations line r.stops st.demands
      (fun p => locSum p (dictStops st.routes)) hdn hbr hlen haccr
    refine ⟨?_, ?_, ?_⟩
    · rw [hdem, processLine_length]
      exact hlen
    · intro s hs
      rw [stateStops, hroutes, hcur'] at hs
      simp only [currentStops] at hs
      rcases List.mem_append.mp hs with h' | h'
      · exact hbdict s h'
      · exact processLine_bounds locations line r.stops st.demands hbr s h'
    · intro p
      rw [hdem, stateStops, hroutes, hcur']
      simp only [currentStops]
      rw [locSum_append]
      exact hpl p
  · -- boundary: the open route (if any) is committed, a fresh one starts
    have hmain : demands1.length = locations.length ∧
        (∀ s ∈ dictStops routes1, s.locPos < locations.length) ∧
        (∀ p : Nat, demands1.getD p 0 = locSum p (dictStops routes1)) := by
      rcases hfin with ⟨hnone, hr1, hd1⟩ | ⟨r, tq, t, ns, hcurr, _, _, _, hnl, hr1⟩
      · subst hr1
        subst hd1
        refine ⟨hlen, hbdict, ?_⟩
        intro p
        rw [hacc p, stateStops, hnone]
        simp only [currentStops, List.append_nil]
      · have hbr : ∀ s ∈ r.stops, s.locPos < locations.length := by
          intro s hs
          exact hb s (by rw [stateStops, hcurr]; exact List.mem_append_right _ hs)
        have haccr : ∀ p : Nat, st.demands.getD p 0 =
            locSum p (dictStops st.routes) + locSum p r.stops := by
          intro p
          rw [hacc p, stateStops, hcurr]
          simp only [currentStops]
          exact locSum_append p _ _
        obtain ⟨hlen1, hbns, hacc1⟩ := normLoop_frame t.capacity locations.length
          (fun p => locSum p (dictStops st.routes)) fuel r.stops st.demands 0
          (sumDelivered r.stops) ns demands1 hnl hbr hlen haccr
        subst hr1
        refine ⟨hlen1, ?_, ?_⟩
        · intro s hs
          rcases mem_dictStops_dictAppend st.routes t.dataIndex
            { r with stops := ns } s hs with h' | h'
          · exact hbdict s h'
          · exact hbns s h'
        · intro p
          rw [locSum_dictStops_dictAppend p st.routes t.dataIndex
            { r with stops := ns }]
          exact hacc1 p
    obtain ⟨hlen1, hb1, hacc1⟩ := hmain
    have hacc1' : ∀ p : Nat, demands1.getD p 0 =
        locSum p (dictStops routes1) + locSum p ([] : List Stop) := by
      intro p
      rw [hacc1 p]
      have h0 : locSum p ([] : List Stop) = 0 := rfl
      rw [h0]
      omega
    have hpl := processLine_acc locations line [] demands1
      (fun p => locSum p (dictStops routes1)) hdn (by simp) hlen1 hacc1'
    refine ⟨?_, ?_, ?_⟩
    · rw [hdem, processLine_length]
      exact hlen1
    · intro s hs
      rw [stateStops, hroutes, hcur'] at hs
      simp only [currentStops] at hs
      rcases List.mem_append.mp hs with h' | h'
      · exact hb1 s h'
      · exact processLine_bounds locations line [] demands1 (by simp) s h'
    · intro p
      rw [hdem, stateStops, hroutes, hcur']
      simp only [currentStops]
      rw [locSum_append]
      exact hpl p

/-- The loop pass preserves the accumulator invariant and yields
non-negative accumulators at the end, given distinct location names and
non-negative parsed demands. -/
theorem readLoop_acc (locations : List PhysicalLocation)
    (vehicles : List Vehicle) (types : List VehicleType) (fuel : Nat)
    (hdn : distinctNames locations) :
    ∀ (lines : List ArchiveLine) (st : ReconState) (routes : RoutesDict)
      (demands : List Int),
      readLoop locations vehicles types fuel st lines = .ok (routes, demands) →
      (∀ l ∈ lines, nonnegComponents l) →
      st.demands.length = locations.length →
      (∀ s ∈ stateStops st, s.locPos < locations.length) →
      (∀ s ∈ stateStops st, 0 ≤ s.delivered) →
      (∀ p : Nat, st.demands.getD p 0 = locSum p (stateStops st)) →
      ∀ d ∈ demands, 0 ≤ d := by
  intro lines
  induction lines with
  | nil =>
    intro st routes demands h _ hlen hb hq hacc
    rw [readLoop] at h
    injection h with h
    injection h with h1 h2
    intro d hd
    obtain ⟨p, hp⟩ := List.mem_iff_getElem?.mp hd
    have hgd : demands.getD p 0 = d := by
      rw [List.getD_eq_getElem?_getD, hp]
      rfl
    rw [← hgd, ← h2, hacc p]
    exact locSum_nonneg p (stateStops st) hq
  | cons line rest ih =>
    intro st routes demands h hl hlen hb hq hacc
    rw [readLoop] at h
    cases hstep : archiveStep locations vehicles types fuel st line with
    | error e => rw [hstep] at h; cases h
    | ok st1 =>
      rw [hstep] at h
      simp only at h
      have hd : 0 ≤ lineDemand line :=
        lineDemand_nonneg line (hl line (List.mem_cons_self line rest))
      obtain ⟨hlen1, hb1, hacc1⟩ := archiveStep_acc locations vehicles types fuel
        st line st1 hstep hdn hlen hb hacc
      have hq1 : ∀ s ∈ stateStops st1, 0 ≤ s.delivered :=
        archiveStep_stops_nonneg locations vehicles types fuel st line st1 hstep hd hq
      exact ih st1 routes demands h
        (fun l hl' => hl l (List.mem_cons_of_mem line hl')) hlen1 hb1 hq1 hacc1

/-- C10 (amended): when the location registry has pairwise-distinct display
names and every successfully parsed demand component is non-negative, every
location's cumulative demand accumulator is non-negative when `read_archive`
returns - each normalization decrement of an accumulator is paired with a
decrement of a stop at that location, so an accumulator always equals the
(non-negative) per-location sum of the live stop quantities. -/
theorem read_archive_demand_nonneg :
    ∀ (locations : List PhysicalLocation) (vehicles : List Vehicle)
      (types : List VehicleType) (fuel : Nat) (lines : List ArchiveLine)
      (routes : RoutesDict) (demands : List Int),
      distinctNames locations →
      (∀ l ∈ lines, nonnegComponents l) →
      read_archive locations vehicles types fuel lines = .ok (routes, demands) →
      ∀ d ∈ demands, 0 ≤ d := by
  intro locations vehicles types fuel lines routes demands hdn hl h
  apply readLoop_acc locations vehicles types fuel hdn lines
    (initState locations types) routes demands h hl
  · simp [initState]
  · intro s hs
    exact absurd hs (by simp [stateStops, initState, dictStops, currentStops])
  · intro s hs
    exact absurd hs (by simp [stateStops, initState, dictStops, currentStops])
  · intro p
    have h0 : locSum p (stateStops (initState locations types)) = 0 := by
      simp [stateStops, initState, dictStops, currentStops, locSum]
    rw [h0, initState]
    simp only
    rw [List.getD_eq_getElem?_getD, List.getElem?_replicate]
    split <;> rfl

/-- C10 witness: on the concrete distinct-name registry with non-negative
demands, the returned accumulator (8 pallets at location 0) is non-negative. -/
theorem read_archive_demand_nonneg_witness :
    (distinctNames [locA] ∧ (∀ l ∈ [lineZ1, lineZ2], nonnegComponents l) ∧
      read_archive [locA] [] [typeCap30] 10 [lineZ1, lineZ2] =
        .ok ([(0, [routeZ])], [8])) ∧
    ∀ d ∈ [(8 : Int)], 0 ≤ d :=
  ⟨⟨by simp [distinctNames], by decide, by decide⟩,
   read_archive_demand_nonneg [locA] [] [typeCap30] 10 [lineZ1, lineZ2]
     [(0, [routeZ])] [8] (by simp [distinctNames]) (by decide) (by decide)⟩

/-- C10 counterexample: two distinct registry locations share the display
name "X", so the merge rule (which compares locations by name) folds store
2's demand into store 1's stop; normalization then decrements store 1's
accumulator once per pallet removed from that merged stop, driving it to -2
even though every parsed demand component (5, 3, 0) is non-negative. -/
theorem read_archive_negative_accumulator :
    (∀ l ∈ [lineX1, lineX2, lineX3], nonnegComponents l) ∧
    read_archive [locX0, locX1] [] [typeCap1] 10 [lineX1, lineX2, lineX3] =
      .ok ([(0, [routeX])], [-2, 3]) ∧
    (-2 : Int) < 0 := by
  have h1 : archiveStep [locX0, locX1] [] [typeCap1] 10
      (initState [locX0, locX1] [typeCap1]) lineX1 = .ok stateXa := by decide
  have h2 : archiveStep [locX0, locX1] [] [typeCap1] 10 stateXa lineX2 = .ok stateXb := by
    decide
  have h3 : archiveStep [locX0, locX1] [] [typeCap1] 10 stateXb lineX3 = .ok stateXc := by
    decide
  refine ⟨by decide, ?_, by decide⟩
  have hrun : read_archive [locX0, locX1] [] [typeCap1] 10 [lineX1, lineX2, lineX3] =
      .ok (stateXc.routes, stateXc.demands) := by
    rw [read_archive, readLoop, h1]
    simp only
    rw [readLoop, h2]
    simp only
    rw [readLoop, h3]
    simp only
    rw [readLoop]
  rw [hrun]
  decide

/-- The accumulator update of `processLine` does not depend on the merge
decision: a resolved line always adds its demand to its location's
accumulator (data.py line 326 runs before the merge check). -/
theorem processLine_snd (locations : List PhysicalLocation) (l : ArchiveLine)
    (stops : List Stop) (demands : List Int) (p : Nat)
    (h : find_location l.storeCode locations = some p) :
    (processLine locations l stops demands).2 = demandAdd demands p (lineDemand l) := by
  rw [processLine, h]
  cases stops with
  | nil => rfl
  | cons s0 rest =>
    simp only
    split <;> rfl

/-- Per-line accumulator delta: position `p` gains the line's demand exactly
when the line resolves to `p`. -/
theorem processLine_getD (locations : List PhysicalLocation) (l : ArchiveLine)
    (stops : List Stop) (demands : List Int) (p : Nat)
    (hlen : demands.length = locations.length) :
    (processLine locations l stops demands).2.getD p 0 =
      demands.getD p 0 +
        (if find_location l.storeCode locations == some p then lineDemand l else 0) := by
  cases hloc : find_location l.storeCode locations with
  | none =>
    rw [processLine_none locations l stops demands hloc]
    simp
  | some q =>
    rw [processLine_snd locations l stops demands q hloc]
    by_cases hqp : q = p
    · subst hqp
      rw [demandAdd, getD_set_self demands q _
        (by rw [hlen]; exact find_location_lt locations l.storeCode q hloc)]
      simp
    · rw [demandAdd, getD_set_other demands q p _ hqp]
      have hb : (some q == some p) = false := by simp [hqp]
      rw [hb]
      simp

/-- Accumulator totals over a within-route run of lines: each location's
accumulator gains the sum of the demands of exactly the lines resolving to
it, regardless of merging. -/
theorem processLines_getD (locations : List PhysicalLocation) :
    ∀ (lines : List ArchiveLine) (stops : List Stop) (demands : List Int) (p : Nat),
      demands.length = locations.length →
      (processLines locations lines stops demands).2.getD p 0 =
        demands.getD p 0 +
          ((lines.filter (fun l => find_location l.storeCode locations == some p)).map
            lineDemand).sum := by
  intro lines
  induction lines with
  | nil =>
    intro stops demands p hlen
    simp [processLines]
  | cons l rest ih =>
    intro stops demands p hlen
    rw [processLines]
    have hlen1 : (processLine locations l stops demands).2.length = locations.length := by
      rw [processLine_length]
      exact hlen
    rw [ih _ _ p hlen1, processLine_getD locations l stops demands p hlen,
      List.filter_cons]
    by_cases hc : (find_location l.storeCode locations == some p) = true
    · rw [if_pos hc, if_pos hc]
      simp only [List.map_cons, List.sum_cons]
      omega
    · rw [if_neg hc, if_neg hc]
      omega

/-- C7: two consecutive within-route lines resolving to the same location
merge into a single front-of-list stop whose quantity is the sum of their
demands (provided the route's previous front stop, if any, is at a
different location); and every location's accumulator ends at its initial
value plus the sum of the demands of exactly the lines resolving to it,
merged or not. -/
theorem processLine_merge_and_accumulator :
    (∀ (locations : List PhysicalLocation) (l1 l2 : ArchiveLine) (p : Nat)
       (stops : List Stop) (demands : List Int),
       find_location l1.storeCode locations = some p →
       find_location l2.storeCode locations = some p →
       (stops = [] ∨ ∃ (s0 : Stop) (rest : List Stop), stops = s0 :: rest ∧
         locNameEq locations s0.locPos p = false) →
       (processLines locations [l1, l2] stops demands).1 =
         { locPos := p, delivered := lineDemand l1 + lineDemand l2 } :: stops) ∧
    (∀ (locations : List PhysicalLocation) (lines : List ArchiveLine)
       (stops : List Stop) (demands : List Int) (p : Nat),
       demands.length = locations.length →
       (processLines locations lines stops demands).2.getD p 0 =
         demands.getD p 0 +
           ((lines.filter (fun l => find_location l.storeCode locations == some p)).map
             lineDemand).sum) := by
  constructor
  · intro locations l1 l2 p stops demands h1 h2 hfront
    have hp : p < locations.length := find_location_lt locations l1.storeCode p h1
    have hm2 : locNameEq locations p p = true := locNameEq_refl locations p hp
    rcases hfront with rfl | ⟨s0, rest, rfl, hm⟩
    · simp only [processLines]
      rw [processLine_some_nil locations l1 demands p h1]
      simp only
      rw [processLine_some_merge locations l2 { locPos := p, delivered := lineDemand l1 }
        [] (demandAdd demands p (lineDemand l1)) p h2 hm2]
    · simp only [processLines]
      rw [processLine_some_insert locations l1 s0 rest demands p h1 (by rw [hm]; simp)]
      simp only
      rw [processLine_some_merge locations l2 { locPos := p, delivered := lineDemand l1 }
        (s0 :: rest) (demandAdd demands p (lineDemand l1)) p h2 hm2]
  · intro locations lines stops demands p hlen
    exact processLines_getD locations lines stops demands p hlen

/-- C7 witness: two store-1 lines with demands 5 and 3 merge into one stop
of quantity 8, and location 0's accumulator gains exactly 8. -/
theorem processLine_merge_and_accumulator_witness :
    (find_location lineZ1.storeCode [locA] = some 0 ∧
      find_location lineZ2.storeCode [locA] = some 0 ∧
      (processLines [locA] [lineZ1, lineZ2] [] [0]).1 =
        [{ locPos := 0, delivered := 8 }]) ∧
    (([0] : List Int).length = [locA].length ∧
      (processLines [locA] [lineZ1, lineZ2] [] [0]).2.getD 0 0 = 0 + 8) :=
  ⟨⟨by decide, by decide, by
    have h := processLine_merge_and_accumulator.1 [locA] lineZ1 lineZ2 0 [] [0]
      (by decide) (by decide) (Or.inl rfl)
    rw [h]
    decide⟩,
   ⟨by decide, by
    have h := processLine_merge_and_accumulator.2 [locA] [lineZ1, lineZ2] [] [0] 0
      (by decide)
    rw [h]
    decide⟩⟩

/-- C2 counterexample: there is a concrete archive input - route 1 delivers
one pallet to each of two locations on a capacity-1 vehicle, then route 2
opens and triggers finalization - on which `read_archive` never returns: the
normalization loop makes no progress for any amount of fuel, so the Python
original loops forever instead of completing its pass. -/
theorem read_archive_divergent_input :
    ¬∃ (fuel : Nat) (out : RoutesDict × List Int),
        read_archive [locA, locB] [] [typeCap1] fuel [lineY1, lineY2, lineY3] =
          .ok out := by
  rintro ⟨fuel, out, hout⟩
  rw [read_archive_divergent_input_aux fuel] at hout
  cases hout
